import Mathlib

/-!
Shallow embedding of `scripts/buildcommands.py` (the wire-protocol command
and response registry, identifier assignment, table emission and schema
construction).

Modelling conventions:
* Python dicts are modelled as insertion-ordered association lists
  (`List (K × V)`): assigning an existing key updates it in place, a new
  key is appended.  CPython 2 iterates a dict in an order that is a fixed
  deterministic function of the inserted keys; the model's insertion order
  is one admissible such order, and no claim below depends on which
  deterministic order is chosen (the schema lists are sorted before use,
  and the remaining claims are order-insensitive).
* Fatal errors (`error()`, which writes to stderr and calls
  `sys.exit(-1)`, and uncaught exceptions such as `ValueError` from
  `max()` on an empty sequence or `KeyError` from a missing dict key)
  are modelled as `Except.error` with the corresponding message.  The
  output file is written only on the success path, as in `main()`.
* `msgproto` (the message-format library) and `DefaultMessages` (the
  baseline message set) are external collaborators: the embedding is
  parameterised over a `MsgProto` interface and a baseline list of
  `(identifier, format)` pairs.
* Build-request records are delivered to the handlers already
  structured (the front end tokenises them).  In the source,
  `decl_command` recovers `msgname = req.split()[1:4][2]` and
  `msg = req.split(None, 3)[3]`, so the message name is exactly the
  first whitespace-separated token of the format string; the embedding
  computes it as `firstToken msg`.
-/

namespace BuildCommands

/-- `firstToken s` is `s.split()[0]` for the space-separated records the
C macros emit: drop leading spaces, then take up to the next space. -/
def firstToken (s : String) : String :=
  String.mk ((s.data.dropWhile (· == ' ')).takeWhile (· != ' '))

/-- Dict lookup (`d.get(k)` / `d[k]`). -/
def alookup {K V : Type} [DecidableEq K] : List (K × V) → K → Option V
  | [], _ => none
  | p :: l, k => if p.1 = k then some p.2 else alookup l k

/-- Dict assignment `d[k] = v`: update in place if the key is present,
otherwise append. -/
def ainsert {K V : Type} [DecidableEq K] : List (K × V) → K → V → List (K × V)
  | [], k, v => [(k, v)]
  | p :: l, k, v => if p.1 = k then (k, v) :: l else p :: ainsert l k v

/-- `max(l)`: Python raises `ValueError` on an empty sequence. -/
def pymax : List Nat → Except String Nat
  | [] => .error "max() arg is an empty sequence"
  | x :: xs => .ok (xs.foldl max x)

/-- `d[k]` where a missing key raises `KeyError`. -/
def getId (mid : List (String × Nat)) (m : String) : Except String Nat :=
  match alookup mid m with
  | some i => .ok i
  | none => .error ("KeyError: " ++ m)

/-- Effectful map over `Except`, as used by the list comprehensions that
index `self.msg_to_id` (a missing key aborts the build). -/
def mapE {α β : Type} (f : α → Except String β) : List α → Except String (List β)
  | [] => .ok []
  | x :: xs =>
    match f x with
    | .ok y => (mapE f xs).map (fun ys => y :: ys)
    | .error e => .error e

/-- Python `sorted` on integers. -/
def sortNat (l : List Nat) : List Nat := l.insertionSort (· ≤ ·)

/-- Interface of the external `msgproto` library (spec §1: the format
grammar is a fixed, externally supplied collaborator).  `msgParamTypes`
(resp. `outParamTypes`) gives, for a format string, the ordered list of
`(type class name, max_length)` pairs of `MessageFormat(id, fmt)`
(resp. `OutputFormat(id, fmt)`). -/
structure MsgProto where
  MESSAGE_MAX : Nat
  MESSAGE_MIN : Nat
  msgParamTypes : String → List (String × Nat)
  outParamTypes : String → List (String × Nat)

/-- State of `HandleCommandGeneration` (its `__init__` fields). -/
structure GenState where
  commands : List (String × (String × String × String))
  encoders : List (Option String × String)
  msg_to_id : List (String × Nat)
  messages_by_name : List (String × String)
  all_param_types : List (List String × Nat)
deriving Repr, DecidableEq

/-- `{m: i for i, m in DefaultMessages.items()}`. -/
def invertBaseline (baseline : List (Nat × String)) : List (String × Nat) :=
  baseline.foldl (fun acc p => ainsert acc p.2 p.1) []

/-- `__init__`, parameterised by the baseline message set. -/
def initState (baseline : List (Nat × String)) : GenState :=
  let mid := invertBaseline baseline
  { commands := []
    encoders := []
    msg_to_id := mid
    messages_by_name := mid.foldl (fun acc p => ainsert acc (firstToken p.1) p.1) []
    all_param_types := [] }

/-- `decl_command`: `funcname, flags, msgname = req.split()[1:4]`,
`msg = req.split(None, 3)[3]` (so `msgname = firstToken msg`). -/
def decl_command (s : GenState) (funcname flags msg : String) :
    Except String GenState :=
  let msgname := firstToken msg
  if (alookup s.commands msgname).isSome then
    .error ("Multiple definitions for command " ++ msgname)
  else
    let cmds := ainsert s.commands msgname (funcname, flags, msgname)
    match alookup s.messages_by_name msgname with
    | some m =>
      if m ≠ msg then .error ("Conflicting definition for command " ++ msgname)
      else .ok { s with commands := cmds
                        messages_by_name := ainsert s.messages_by_name msgname msg }
    | none => .ok { s with commands := cmds
                           messages_by_name := ainsert s.messages_by_name msgname msg }

/-- `decl_encoder`: `msg = req.split(None, 1)[1]`, `msgname = msg.split()[0]`. -/
def decl_encoder (s : GenState) (msg : String) : Except String GenState :=
  let msgname := firstToken msg
  match alookup s.messages_by_name msgname with
  | some m =>
    if m ≠ msg then .error ("Conflicting definition for message " ++ msgname)
    else .ok { s with messages_by_name := ainsert s.messages_by_name msgname msg
                      encoders := s.encoders ++ [(some msgname, msg)] }
  | none => .ok { s with messages_by_name := ainsert s.messages_by_name msgname msg
                         encoders := s.encoders ++ [(some msgname, msg)] }

/-- `decl_output`: records `(None, msg)`; never fails. -/
def decl_output (s : GenState) (msg : String) : GenState :=
  { s with encoders := s.encoders ++ [(none, msg)] }

/-- The three build-request record kinds dispatched to
`HandleCommandGeneration` (`_DECL_COMMAND`, `_DECL_ENCODER`,
`_DECL_OUTPUT`). -/
inductive Req where
  | declCommand (funcname flags msg : String)
  | declEncoder (msg : String)
  | declOutput (msg : String)
deriving Repr, DecidableEq

def applyReq (s : GenState) : Req → Except String GenState
  | .declCommand f fl m => decl_command s f fl m
  | .declEncoder m => decl_encoder s m
  | .declOutput m => .ok (decl_output s m)

/-- Replay of the request stream (the dispatch loop in `main`). -/
def processAll : List Req → GenState → Except String GenState
  | [], s => .ok s
  | r :: rs, s =>
    match applyReq s r with
    | .ok s' => processAll rs s'
    | .error e => .error e

/-- `self.messages_by_name.get(msgname, msgname)`. -/
def resolveName (mbn : List (String × String)) (n : String) : String :=
  (alookup mbn n).getD n

/-- The allocation loop of `create_message_ids`: walk the referenced
names, resolve each through `messages_by_name`, and give any format not
yet in `msg_to_id` the next identifier. -/
def assignIds (mbn : List (String × String)) :
    List String → List (String × Nat) → Nat → List (String × Nat)
  | [], mid, _ => mid
  | n :: ns, mid, cur =>
    let msg := resolveName mbn n
    if (alookup mid msg).isSome then assignIds mbn ns mid cur
    else assignIds mbn ns (mid ++ [(msg, cur + 1)]) (cur + 1)

/-- `create_message_ids`. -/
def create_message_ids (s : GenState) : Except String GenState :=
  (pymax (s.msg_to_id.map Prod.snd)).map (fun start =>
    { s with msg_to_id := (assignIds s.messages_by_name
        (s.commands.map Prod.fst ++ s.encoders.map Prod.snd)
        s.msg_to_id start) })

/-- The command-generation fields of the identify data dictionary. -/
structure DataDict where
  messages : List (Nat × String)
  commands : List Nat
  responses : List Nat
deriving Repr, DecidableEq

/-- `update_data_dictionary`: runs `create_message_ids` (mutating the
registry in the source; here the mutated state is returned alongside)
and builds the `messages` / `commands` / `responses` fields. -/
def update_data_dictionary (s : GenState) : Except String (GenState × DataDict) :=
  match create_message_ids s with
  | .error e => .error e
  | .ok s' =>
    match mapE (fun p => getId s'.msg_to_id p.2)
        (s'.messages_by_name.filter
          (fun p => (alookup s'.commands p.1).isSome)) with
    | .error e => .error e
    | .ok cs =>
      match mapE (fun p => getId s'.msg_to_id p.2)
          (s'.messages_by_name.filter
            (fun p => !(alookup s'.commands p.1).isSome)) with
      | .error e => .error e
      | .ok rs =>
        .ok (s', { messages := s'.msg_to_id.map (fun p => (p.2, p.1))
                   commands := sortNat cs
                   responses := sortNat rs })

/-- The interning step of `buildParser` on `self.all_param_types`:
a seen signature keeps its index, an unseen one gets index
`len(all_param_types)`. -/
def internTypes (tbl : List (List String × Nat)) (t : List String) :
    List (List String × Nat) × Nat :=
  match alookup tbl t with
  | some i => (tbl, i)
  | none => (tbl ++ [(t, tbl.length)], tbl.length)

/-- Python `"sep".join(l)`. -/
def pyJoin (sep : String) (l : List String) : String := String.intercalate sep l

def isPyWs (c : Char) : Bool := c == ' ' || c == '\n' || c == '\t' || c == '\r'

/-- Python `s.strip()`. -/
def pyStrip (s : String) : String :=
  String.mk (((s.data.dropWhile isPyWs).reverse.dropWhile isPyWs).reverse)

/-- `buildParser`: the type-signature interning plus the rendered struct
body.  `isOutput` selects `OutputFormat` over `MessageFormat` (taken when
`parser.name == "#output"`, i.e. for anonymous outputs); `iscmd` selects
the `.num_args` tail over the `.max_size` tail. -/
def buildParser (mp : MsgProto) (tbl : List (List String × Nat))
    (isOutput : Bool) (msgid : Nat) (msgformat : String) (iscmd : Bool) :
    List (List String × Nat) × String :=
  let comment := if isOutput then "Output: " ++ msgformat else msgformat
  let ptypes := if isOutput then mp.outParamTypes msgformat
                else mp.msgParamTypes msgformat
  let types := ptypes.map Prod.fst
  let (tbl', params) :=
    if types = [] then (tbl, "0")
    else
      let (tbl', paramid) := internTypes tbl types
      (tbl', "command_parameters" ++ toString paramid)
  let out := "\n    // " ++ comment ++ "\n    .msg_id=" ++ toString msgid
      ++ ",\n    .num_params=" ++ toString types.length
      ++ ",\n    .param_types = " ++ params ++ ",\n"
  let tail :=
    if iscmd then
      let num_args := types.length + types.count "PT_progmem_buffer"
          + types.count "PT_buffer"
      "    .num_args=" ++ toString num_args ++ ","
    else
      let max_size := min mp.MESSAGE_MAX
          (mp.MESSAGE_MIN + 1 + (ptypes.map Prod.snd).sum)
      "    .max_size=" ++ toString max_size ++ ","
  (tbl', out ++ tail)

/-- Accumulator of `generate_responses_code`: the emitted
`command_encoder` definitions (msgid, parser code), the lookup-chain
lines of `ctr_lookup_output` and `ctr_lookup_encoder` (format, msgid),
the `did_output` key set and the threaded `all_param_types` table. -/
structure RespAcc where
  defs : List (Nat × String)
  outs : List (String × Nat)
  encs : List (String × Nat)
  did : List Nat
  tbl : List (List String × Nat)
deriving Repr, DecidableEq

/-- The loop of `generate_responses_code` over `self.encoders`. -/
def respLoop (mp : MsgProto) (mid : List (String × Nat)) :
    List (Option String × String) → RespAcc → Except String RespAcc
  | [], acc => .ok acc
  | (nm, msg) :: rest, acc =>
    match getId mid msg with
    | .error e => .error e
    | .ok msgid =>
      if acc.did.contains msgid then respLoop mp mid rest acc
      else
        let tp := buildParser mp acc.tbl nm.isNone msgid msg false
        respLoop mp mid rest
          (if nm.isNone then
            { acc with defs := acc.defs ++ [(msgid, tp.2)]
                       outs := acc.outs ++ [(msg, msgid)]
                       did := acc.did ++ [msgid], tbl := tp.1 }
          else
            { acc with defs := acc.defs ++ [(msgid, tp.2)]
                       encs := acc.encs ++ [(msg, msgid)]
                       did := acc.did ++ [msgid], tbl := tp.1 })

/-- Structured result of `generate_responses_code`. -/
def genResponses (mp : MsgProto) (s : GenState) : Except String RespAcc :=
  respLoop mp s.msg_to_id s.encoders
    { defs := [], outs := [], encs := [], did := [], tbl := s.all_param_types }

def renderEncoderDef (p : Nat × String) : String :=
  "const struct command_encoder command_encoder_" ++ toString p.1
    ++ " PROGMEM = \x7b    " ++ p.2 ++ "\n\x7d;\n"

def renderLookupLine (p : String × Nat) : String :=
  "    if (__builtin_strcmp(str, \"" ++ p.1 ++ "\") == 0)\n"
    ++ "        return &command_encoder_" ++ toString p.2 ++ ";\n"

/-- The rendered output of `generate_responses_code`. -/
def renderResponses (r : RespAcc) : String :=
  "\n" ++ pyStrip (pyJoin "" (r.defs.map renderEncoderDef))
    ++ "\n\nconst __always_inline struct command_encoder *\n"
    ++ "ctr_lookup_encoder(const char *str)\n\x7b\n    "
    ++ pyStrip (pyJoin "" (r.encs.map renderLookupLine))
    ++ "\n    return NULL;\n\x7d\n"
    ++ "\nconst __always_inline struct command_encoder *\n"
    ++ "ctr_lookup_output(const char *str)\n\x7b\n    "
    ++ pyStrip (pyJoin "" (r.outs.map renderLookupLine))
    ++ "\n    return NULL;\n\x7d\n"

/-- One slot of the dense `command_index[]` dispatch table: either the
gap placeholder `{` `}` (no handler, no parameters) or a populated entry
carrying the parser code, the dispatch flags and the handler name. -/
inductive CEntry where
  | gap
  | cmd (parsercode flags funcname : String)
deriving Repr, DecidableEq

/-- `cmd_by_id`: `{msg_to_id[messages_by_name.get(n, n)]: cmd for n, cmd
in commands.items()}`. -/
def cmdById (s : GenState) :
    Except String (List (Nat × (String × String × String))) :=
  s.commands.foldlM (fun acc p =>
    match getId s.msg_to_id (resolveName s.messages_by_name p.1) with
    | .ok i => .ok (ainsert acc i p.2)
    | .error e => .error e) []

/-- The per-identifier loop of `generate_commands_code`, over
`range(max_cmd_msgid + 1)`. -/
def cmdLoop (mp : MsgProto) (mbn : List (String × String))
    (cb : List (Nat × (String × String × String))) :
    List Nat → List (List String × Nat) →
    Except String (List CEntry × List (List String × Nat))
  | [], tbl => .ok ([], tbl)
  | i :: is, tbl =>
    match alookup cb i with
    | none =>
      (cmdLoop mp mbn cb is tbl).map (fun r => (CEntry.gap :: r.1, r.2))
    | some (funcname, flags, msgname) =>
      match alookup mbn msgname with
      | none => .error ("KeyError: " ++ msgname)
      | some msg =>
        let (tbl', pc) := buildParser mp tbl false i msg true
        (cmdLoop mp mbn cb is tbl').map
          (fun r => (CEntry.cmd pc flags funcname :: r.1, r.2))

/-- Structured `generate_commands_code`: the dense entry list (length
`max_cmd_msgid + 1`) and the threaded type table.  With no commands
declared, `max()` on the empty key set fails. -/
def commandEntries (mp : MsgProto) (s : GenState)
    (tbl : List (List String × Nat)) :
    Except String (List CEntry × List (List String × Nat)) :=
  match cmdById s with
  | .error e => .error e
  | .ok cb =>
    match pymax (cb.map Prod.fst) with
    | .error e => .error e
    | .ok mx => cmdLoop mp s.messages_by_name cb (List.range (mx + 1)) tbl

def renderCEntry : CEntry → String
  | .gap => " \x7b\n\x7d,"
  | .cmd pc flags funcname =>
    " \x7b" ++ pc ++ "\n    .flags=" ++ flags ++ ",\n    .func="
      ++ funcname ++ "\n\x7d,"

/-- String sort used for the `extern` declarations (`sorted(externs)`). -/
def sortStr (l : List String) : List String :=
  l.insertionSort (fun a b => !(decide (b < a)))

/-- The distinct handler names, in `externs` dict-key order. -/
def externNames (cb : List (Nat × (String × String × String))) : List String :=
  cb.foldl (fun acc p =>
    if acc.contains p.2.1 then acc else acc ++ [p.2.1]) []

def renderExterns (names : List String) : String :=
  pyJoin "\n" ((sortStr names).map
    (fun f => "extern void " ++ f ++ "(uint32_t*);"))

/-- Rendered `generate_commands_code`. -/
def generate_commands_code (mp : MsgProto) (s : GenState)
    (tbl : List (List String × Nat)) :
    Except String (String × List (List String × Nat)) :=
  match cmdById s with
  | .error e => .error e
  | .ok cb =>
    match commandEntries mp s tbl with
    | .error e => .error e
    | .ok (entries, tbl') =>
      .ok ("\n" ++ renderExterns (externNames cb)
        ++ "\n\nconst struct command_parser command_index[] PROGMEM = \x7b\n"
        ++ pyStrip (pyJoin "" (entries.map renderCEntry))
        ++ "\n\x7d;\n\nconst uint8_t command_index_size PROGMEM"
        ++ " = ARRAY_SIZE(command_index);\n", tbl')

/-- `generate_param_code`: the interned signatures sorted by index. -/
def generate_param_code (tbl : List (List String × Nat)) : String :=
  let sorted := (tbl.map (fun p => (p.2, p.1))).insertionSort
    (fun a b => a.1 ≤ b.1)
  pyJoin "\n" ([""] ++ sorted.map (fun p =>
    "static const uint8_t command_parameters" ++ toString p.1
      ++ "[] PROGMEM = \x7b\n    " ++ pyJoin ", " p.2 ++ " \x7d;") ++ [""])

/-- `generate_code` of `HandleCommandGeneration`: responses first, then
commands (both interning into `all_param_types`), then the parameter
tables; concatenated as `paramcode + parsercode + cmdcode`. -/
def generate_code (mp : MsgProto) (s : GenState) : Except String String :=
  match genResponses mp s with
  | .error e => .error e
  | .ok r =>
    match generate_commands_code mp s r.tbl with
    | .error e => .error e
    | .ok (cmdcode, tbl') =>
      .ok (generate_param_code tbl' ++ renderResponses r ++ cmdcode)

/-- `build_version`: `"%s-%s-%s%s" % (gitver or "?", btime, hostname,
extra)`.  Build time and hostname are environment inputs of a run. -/
def buildVersionStr (gitver btime hostname extra : String) : String :=
  (if gitver = "" then "?" else gitver) ++ "-" ++ btime ++ "-" ++ hostname ++ extra

def renderNatList (l : List Nat) : String :=
  "[" ++ pyJoin ", " (l.map toString) ++ "]"

/-- The uncompressed identify document built by `build_identify`
(`json.dumps(data)` restricted to the command-generation fields plus the
version metadata); the model fixes one deterministic key order and
rendering, standing for the deterministic serialisation of the dict. -/
def jsonDoc (dd : DataDict) (version toolstr : String) : String :=
  "\x7b\"messages\": \x7b"
    ++ pyJoin ", " (dd.messages.map
        (fun p => "\"" ++ toString p.1 ++ "\": \"" ++ p.2 ++ "\""))
    ++ "\x7d, \"commands\": " ++ renderNatList dd.commands
    ++ ", \"responses\": " ++ renderNatList dd.responses
    ++ ", \"version\": \"" ++ version
    ++ "\", \"build_versions\": \"" ++ toolstr ++ "\"\x7d"

/-- One build invocation over the command-generation core: replay the
request stream, build the identify document (`build_identify` calls
`update_data_dictionary`, which runs the identifier assignment), then
generate the C tables.  The pair `(generated code, identify document)`
is produced only when no step failed — `main` writes the output file
only after every declaration was processed without error. -/
def runBuild (mp : MsgProto) (baseline : List (Nat × String))
    (reqs : List Req) (gitver btime hostname extra toolstr : String) :
    Except String (String × String) :=
  match processAll reqs (initState baseline) with
  | .error e => .error e
  | .ok s =>
    match update_data_dictionary s with
    | .error e => .error e
    | .ok (s', dd) =>
      let version := buildVersionStr gitver btime hostname extra
      match generate_code mp s' with
      | .error e => .error e
      | .ok code => .ok (code, jsonDoc dd version toolstr)

/-! ### Association-list lemmas -/

theorem alookup_mem {K V : Type} [DecidableEq K] {l : List (K × V)} {k : K}
    {v : V} (h : alookup l k = some v) : (k, v) ∈ l := by
  induction l with
  | nil => simp [alookup] at h
  | cons p t ih =>
    rw [alookup] at h
    by_cases hp : p.1 = k
    · rw [if_pos hp] at h
      obtain rfl := Option.some.inj h
      subst hp
      rw [Prod.mk.eta]
      exact List.mem_cons_self _ _
    · rw [if_neg hp] at h
      exact List.mem_cons_of_mem _ (ih h)

theorem mem_alookup {K V : Type} [DecidableEq K] {l : List (K × V)} {k : K}
    {v : V} (hnd : (l.map Prod.fst).Nodup) (h : (k, v) ∈ l) :
    alookup l k = some v := by
  induction l with
  | nil => simp at h
  | cons p t ih =>
    simp only [List.map_cons, List.nodup_cons] at hnd
    rcases List.mem_cons.1 h with h1 | h1
    · rw [← h1, alookup, if_pos rfl]
    · rw [alookup]
      have hk : p.1 ≠ k := by
        intro he
        exact hnd.1 (he ▸ List.mem_map_of_mem Prod.fst h1)
      rw [if_neg hk]
      exact ih hnd.2 h1

theorem alookup_append {K V : Type} [DecidableEq K] (l₁ l₂ : List (K × V))
    (k : K) :
    alookup (l₁ ++ l₂) k =
      match alookup l₁ k with
      | some v => some v
      | none => alookup l₂ k := by
  induction l₁ with
  | nil => simp [alookup]
  | cons p t ih =>
    by_cases hp : p.1 = k
    · simp [alookup, hp]
    · simp [alookup, hp, ih]

theorem alookup_append_left {K V : Type} [DecidableEq K] {l₁ : List (K × V)}
    (l₂ : List (K × V)) {k : K} {v : V} (h : alookup l₁ k = some v) :
    alookup (l₁ ++ l₂) k = some v := by
  rw [alookup_append, h]

theorem alookup_append_cases {K V : Type} [DecidableEq K] {l₁ l₂ : List (K × V)}
    {k : K} {v : V} (h : alookup (l₁ ++ l₂) k = some v) :
    alookup l₁ k = some v ∨ (alookup l₁ k = none ∧ alookup l₂ k = some v) := by
  rw [alookup_append] at h
  cases hl : alookup l₁ k with
  | none =>
    rw [hl] at h
    have h' : alookup l₂ k = some v := h
    exact Or.inr ⟨rfl, h'⟩
  | some w =>
    rw [hl] at h
    have h' : some w = some v := h
    exact Or.inl h'

theorem alookup_ainsert_self {K V : Type} [DecidableEq K] (l : List (K × V))
    (k : K) (v : V) : alookup (ainsert l k v) k = some v := by
  induction l with
  | nil => simp [ainsert, alookup]
  | cons p t ih =>
    by_cases hp : p.1 = k
    · simp [ainsert, hp, alookup]
    · simp [ainsert, hp, alookup, ih]

theorem alookup_ainsert_ne {K V : Type} [DecidableEq K] (l : List (K × V))
    {k k' : K} (v : V) (h : k' ≠ k) :
    alookup (ainsert l k v) k' = alookup l k' := by
  have hk : ¬ k = k' := fun he => h he.symm
  induction l with
  | nil => simp [ainsert, alookup, hk]
  | cons p t ih =>
    by_cases hp : p.1 = k
    · have hp' : ¬ p.1 = k' := fun he => hk (hp.symm.trans he)
      rw [ainsert, if_pos hp, alookup, if_neg hk, alookup, if_neg hp']
    · rw [ainsert, if_neg hp, alookup, alookup, ih]

theorem mem_keys_ainsert {K V : Type} [DecidableEq K] {l : List (K × V)}
    {k x : K} {v : V} :
    x ∈ (ainsert l k v).map Prod.fst ↔ x = k ∨ x ∈ l.map Prod.fst := by
  induction l with
  | nil => simp [ainsert]
  | cons p t ih =>
    by_cases hp : p.1 = k
    · rw [ainsert, if_pos hp]
      simp only [List.map_cons, List.mem_cons, hp]
      tauto
    · rw [ainsert, if_neg hp]
      simp only [List.map_cons, List.mem_cons, ih]
      tauto

theorem ainsert_pred {K V : Type} [DecidableEq K] {P : K × V → Prop}
    {l : List (K × V)} {k : K} {v : V} (hl : ∀ p ∈ l, P p) (hkv : P (k, v)) :
    ∀ p ∈ ainsert l k v, P p := by
  induction l with
  | nil => simpa [ainsert] using hkv
  | cons q t ih =>
    intro p hp
    by_cases hq : q.1 = k
    · rw [ainsert, if_pos hq] at hp
      rcases List.mem_cons.1 hp with h | h
      · exact h ▸ hkv
      · exact hl p (List.mem_cons_of_mem _ h)
    · rw [ainsert, if_neg hq] at hp
      rcases List.mem_cons.1 hp with h | h
      · exact h ▸ hl q (List.mem_cons_self _ _)
      · exact ih (fun p hp => hl p (List.mem_cons_of_mem _ hp)) p h

theorem ainsert_of_not_mem {K V : Type} [DecidableEq K] {l : List (K × V)}
    {k : K} (v : V) (h : k ∉ l.map Prod.fst) : ainsert l k v = l ++ [(k, v)] := by
  induction l with
  | nil => simp [ainsert]
  | cons p t ih =>
    simp only [List.map_cons, List.mem_cons] at h
    push_neg at h
    rw [ainsert, if_neg (fun he => h.1 he.symm), List.cons_append, ih h.2]

theorem nodup_keys_ainsert {K V : Type} [DecidableEq K] {l : List (K × V)}
    {k : K} (v : V) (h : (l.map Prod.fst).Nodup) :
    ((ainsert l k v).map Prod.fst).Nodup := by
  induction l with
  | nil => simp [ainsert]
  | cons p t ih =>
    simp only [List.map_cons, List.nodup_cons] at h
    by_cases hp : p.1 = k
    · simp only [ainsert, if_pos hp, List.map_cons, List.nodup_cons]
      exact ⟨hp ▸ h.1, h.2⟩
    · simp only [ainsert, if_neg hp, List.map_cons, List.nodup_cons]
      refine ⟨fun hm => ?_, ih h.2⟩
      rcases (mem_keys_ainsert).1 hm with he | hm'
      · exact hp he
      · exact h.1 hm'

theorem snd_nodup_inj {K V : Type} {l : List (K × V)}
    (h : (l.map Prod.snd).Nodup) {a b : K} {c : V}
    (h1 : (a, c) ∈ l) (h2 : (b, c) ∈ l) : a = b := by
  induction l with
  | nil => simp at h1
  | cons p t ih =>
    simp only [List.map_cons, List.nodup_cons] at h
    rcases List.mem_cons.1 h1 with e1 | e1 <;> rcases List.mem_cons.1 h2 with e2 | e2
    · exact (Prod.ext_iff.1 (e1.trans e2.symm)).1
    · exact absurd (List.mem_map_of_mem Prod.snd e2)
        (by rw [← e1] at h; exact h.1)
    · exact absurd (List.mem_map_of_mem Prod.snd e1)
        (by rw [← e2] at h; exact h.1)
    · exact ih h.2 e1 e2

/-! ### `pymax` and `mapE` lemmas -/

theorem foldl_max_spec (l : List Nat) (a : Nat) :
    a ≤ l.foldl max a ∧ ∀ i ∈ l, i ≤ l.foldl max a := by
  induction l generalizing a with
  | nil => simp
  | cons x t ih =>
    simp only [List.foldl_cons]
    refine ⟨le_trans (le_max_left a x) (ih (max a x)).1, ?_⟩
    intro i hi
    rcases List.mem_cons.1 hi with rfl | h
    · exact le_trans (le_max_right a _) (ih (max a _)).1
    · exact (ih (max a x)).2 i h

theorem pymax_spec {l : List Nat} {x : Nat} (h : pymax l = .ok x) :
    ∀ i ∈ l, i ≤ x := by
  cases l with
  | nil => simp [pymax] at h
  | cons y t =>
    simp only [pymax, Except.ok.injEq] at h
    intro i hi
    rw [← h]
    rcases List.mem_cons.1 hi with rfl | h1
    · exact (foldl_max_spec t i).1
    · exact (foldl_max_spec t y).2 i h1

theorem mapE_ok_forward {α β : Type} {f : α → Except String β} {l : List α}
    {ys : List β} (h : mapE f l = .ok ys) {y : β} (hy : y ∈ ys) :
    ∃ x ∈ l, f x = .ok y := by
  induction l generalizing ys with
  | nil =>
    simp only [mapE, Except.ok.injEq] at h
    rw [← h] at hy
    simp at hy
  | cons x t ih =>
    rw [mapE] at h
    cases hf : f x with
    | error e => rw [hf] at h; exact absurd h (by simp)
    | ok v =>
      rw [hf] at h
      cases ht : mapE f t with
      | error e => rw [ht] at h; exact absurd h (by simp [Except.map])
      | ok vs =>
        rw [ht] at h
        simp only [Except.map, Except.ok.injEq] at h
        subst h
        rcases List.mem_cons.1 hy with h1 | h1
        · exact ⟨x, List.mem_cons_self _ _, h1 ▸ hf⟩
        · rcases ih ht h1 with ⟨x', hx', hfx'⟩
          exact ⟨x', List.mem_cons_of_mem _ hx', hfx'⟩

theorem mapE_ok_backward {α β : Type} {f : α → Except String β} {l : List α}
    {ys : List β} (h : mapE f l = .ok ys) {x : α} (hx : x ∈ l) :
    ∃ y ∈ ys, f x = .ok y := by
  induction l generalizing ys with
  | nil => simp at hx
  | cons z t ih =>
    rw [mapE] at h
    cases hf : f z with
    | error e => rw [hf] at h; exact absurd h (by simp)
    | ok v =>
      rw [hf] at h
      cases ht : mapE f t with
      | error e => rw [ht] at h; exact absurd h (by simp [Except.map])
      | ok vs =>
        rw [ht] at h
        simp only [Except.map, Except.ok.injEq] at h
        subst h
        rcases List.mem_cons.1 hx with h1 | h1
        · exact ⟨v, List.mem_cons_self _ _, h1 ▸ hf⟩
        · rcases ih ht h1 with ⟨y, hy, hfy⟩
          exact ⟨y, List.mem_cons_of_mem _ hy, hfy⟩

theorem mem_sortNat {l : List Nat} {i : Nat} : i ∈ sortNat l ↔ i ∈ l :=
  (List.perm_insertionSort (· ≤ ·) l).mem_iff

/-! ### Inversion of the declaration handlers -/

theorem decl_command_ok {s s' : GenState} {f fl msg : String}
    (h : decl_command s f fl msg = .ok s') :
    (alookup s.commands (firstToken msg)).isSome = false
    ∧ (∀ m, alookup s.messages_by_name (firstToken msg) = some m → m = msg)
    ∧ s' = { s with
        commands := ainsert s.commands (firstToken msg)
          (f, fl, firstToken msg)
        messages_by_name := ainsert s.messages_by_name (firstToken msg) msg } := by
  rw [decl_command] at h
  split at h
  · exact absurd h (by simp)
  · next hc =>
    refine ⟨by simpa using hc, ?_⟩
    split at h
    · next m hm =>
      split at h
      · exact absurd h (by simp)
      · next hne =>
        push_neg at hne
        obtain rfl := Except.ok.inj h
        exact ⟨fun m' hm' => by rw [hm] at hm'; exact (Option.some.inj hm').symm ▸ hne, rfl⟩
    · next hm =>
      obtain rfl := Except.ok.inj h
      exact ⟨fun m' hm' => absurd hm' (by rw [hm]; simp), rfl⟩

theorem decl_encoder_ok {s s' : GenState} {msg : String}
    (h : decl_encoder s msg = .ok s') :
    (∀ m, alookup s.messages_by_name (firstToken msg) = some m → m = msg)
    ∧ s' = { s with
        messages_by_name := ainsert s.messages_by_name (firstToken msg) msg
        encoders := s.encoders ++ [(some (firstToken msg), msg)] } := by
  rw [decl_encoder] at h
  split at h
  · next m hm =>
    split at h
    · exact absurd h (by simp)
    · next hne =>
      push_neg at hne
      obtain rfl := Except.ok.inj h
      exact ⟨fun m' hm' => by rw [hm] at hm'; exact (Option.some.inj hm').symm ▸ hne, rfl⟩
  · next hm =>
    obtain rfl := Except.ok.inj h
    exact ⟨fun m' hm' => absurd hm' (by rw [hm]; simp), rfl⟩

/-! ### Replay facts -/

theorem applyReq_msg_to_id {s s' : GenState} {r : Req}
    (h : applyReq s r = .ok s') : s'.msg_to_id = s.msg_to_id := by
  cases r with
  | declCommand f fl m =>
    obtain ⟨-, -, rfl⟩ := decl_command_ok h
    rfl
  | declEncoder m =>
    obtain ⟨-, rfl⟩ := decl_encoder_ok h
    rfl
  | declOutput m =>
    obtain rfl := Except.ok.inj h
    rfl

theorem processAll_msg_to_id {reqs : List Req} {s s' : GenState}
    (h : processAll reqs s = .ok s') : s'.msg_to_id = s.msg_to_id := by
  induction reqs generalizing s with
  | nil => exact (Except.ok.inj h) ▸ rfl
  | cons r rs ih =>
    rw [processAll] at h
    cases ha : applyReq s r with
    | error e => rw [ha] at h; exact absurd h (by simp)
    | ok s₁ =>
      rw [ha] at h
      exact (ih h).trans (applyReq_msg_to_id ha)

theorem processAll_append (xs ys : List Req) (s : GenState) :
    processAll (xs ++ ys) s =
      match processAll xs s with
      | .ok t => processAll ys t
      | .error e => .error e := by
  induction xs generalizing s with
  | nil => simp [processAll]
  | cons r rs ih =>
    rw [List.cons_append, processAll, processAll]
    cases applyReq s r with
    | error e => rfl
    | ok s₁ => exact ih s₁

/-- The well-formedness of `messages_by_name` that holds for every
reachable registry: each entry's key is the first token of its format
(baseline entries are inserted as `(m.split()[0], m)`, declarations as
`(msgname, msg)` with `msgname = msg.split()[0]`). -/
def MbnWF (s : GenState) : Prop :=
  ∀ p ∈ s.messages_by_name, p.1 = firstToken p.2

theorem initState_MbnWF (baseline : List (Nat × String)) :
    MbnWF (initState baseline) := by
  have : ∀ (l : List (String × Nat)) (acc : List (String × String)),
      (∀ p ∈ acc, p.1 = firstToken p.2) →
      ∀ p ∈ l.foldl (fun acc p => ainsert acc (firstToken p.1) p.1) acc,
        p.1 = firstToken p.2 := by
    intro l
    induction l with
    | nil => intro acc hacc; exact hacc
    | cons q t ih =>
      intro acc hacc
      exact ih _ (ainsert_pred hacc rfl)
  exact this _ [] (by simp)

theorem applyReq_MbnWF {s s' : GenState} {r : Req} (hwf : MbnWF s)
    (h : applyReq s r = .ok s') : MbnWF s' := by
  cases r with
  | declCommand f fl m =>
    obtain ⟨-, -, rfl⟩ := decl_command_ok h
    exact ainsert_pred hwf rfl
  | declEncoder m =>
    obtain ⟨-, rfl⟩ := decl_encoder_ok h
    exact ainsert_pred hwf rfl
  | declOutput m =>
    obtain rfl := Except.ok.inj h
    exact hwf

theorem processAll_MbnWF {reqs : List Req} {s s' : GenState} (hwf : MbnWF s)
    (h : processAll reqs s = .ok s') : MbnWF s' := by
  induction reqs generalizing s with
  | nil => exact (Except.ok.inj h) ▸ hwf
  | cons r rs ih =>
    rw [processAll] at h
    cases ha : applyReq s r with
    | error e => rw [ha] at h; exact absurd h (by simp)
    | ok s₁ =>
      rw [ha] at h
      exact ih (applyReq_MbnWF hwf ha) h

/-! ### Identifier assignment -/

theorem alookup_append_none {K V : Type} [DecidableEq K] {l₁ l₂ : List (K × V)}
    {k : K} (h : alookup (l₁ ++ l₂) k = none) :
    alookup l₁ k = none ∧ alookup l₂ k = none := by
  rw [alookup_append] at h
  cases hl : alookup l₁ k with
  | none => rw [hl] at h; exact ⟨rfl, h⟩
  | some w => rw [hl] at h; exact absurd h (by simp)

/-- Behaviour of the allocation loop: the existing mapping is kept as a
prefix, and the appended entries carry strictly increasing identifiers,
all above `cur`, for pairwise-distinct formats not previously mapped. -/
theorem assignIds_spec (mbn : List (String × String)) (ns : List String)
    (mid : List (String × Nat)) (cur : Nat)
    (hcur : ∀ i ∈ mid.map Prod.snd, i ≤ cur) :
    ∃ news, assignIds mbn ns mid cur = mid ++ news
      ∧ List.Pairwise (· < ·) (news.map Prod.snd)
      ∧ (∀ j ∈ news.map Prod.snd, cur < j)
      ∧ (news.map Prod.fst).Nodup
      ∧ (∀ m ∈ news.map Prod.fst, alookup mid m = none) := by
  induction ns generalizing mid cur with
  | nil => exact ⟨[], by simp [assignIds]⟩
  | cons n ns ih =>
    rw [assignIds]
    by_cases hl : (alookup mid (resolveName mbn n)).isSome
    · rw [if_pos hl]
      exact ih mid cur hcur
    · rw [if_neg hl]
      have hnone : alookup mid (resolveName mbn n) = none :=
        Option.not_isSome_iff_eq_none.1 hl
      have hcur' : ∀ i ∈ (mid ++ [(resolveName mbn n, cur + 1)]).map Prod.snd,
          i ≤ cur + 1 := by
        intro i hi
        rw [List.map_append] at hi
        rcases List.mem_append.1 hi with hi | hi
        · exact le_trans (hcur i hi) (Nat.le_succ cur)
        · simp at hi
          omega
      obtain ⟨news, heq, hpw, hgt, hnd, hnm⟩ :=
        ih (mid ++ [(resolveName mbn n, cur + 1)]) (cur + 1) hcur'
      refine ⟨(resolveName mbn n, cur + 1) :: news, ?_, ?_, ?_, ?_, ?_⟩
      · rw [heq, List.append_assoc]
        rfl
      · rw [List.map_cons]
        exact List.pairwise_cons.2 ⟨fun j hj => hgt j hj, hpw⟩
      · rw [List.map_cons]
        intro j hj
        rcases List.mem_cons.1 hj with rfl | hj
        · exact Nat.lt_succ_self cur
        · exact lt_trans (Nat.lt_succ_self cur) (hgt j hj)
      · rw [List.map_cons]
        refine List.nodup_cons.2 ⟨fun hm => ?_, hnd⟩
        have := hnm _ hm
        rw [alookup_append] at this
        cases hl0 : alookup mid (resolveName mbn n) with
        | some w => exact hl (by rw [hl0]; rfl)
        | none =>
          rw [hl0] at this
          have h1 : alookup [(resolveName mbn n, cur + 1)]
              (resolveName mbn n) = none := this
          rw [alookup, if_pos rfl] at h1
          exact absurd h1 (by simp)
      · rw [List.map_cons]
        intro m hm
        rcases List.mem_cons.1 hm with rfl | hm
        · exact hnone
        · exact (alookup_append_none (hnm m hm)).1

/-- `create_message_ids` in terms of `assignIds_spec`: only `msg_to_id`
changes, by appending fresh, strictly increasing identifiers (all above
the baseline maximum `start`) for formats not previously mapped. -/
theorem create_message_ids_spec {s s' : GenState}
    (h : create_message_ids s = .ok s') :
    s'.commands = s.commands ∧ s'.encoders = s.encoders
    ∧ s'.messages_by_name = s.messages_by_name
    ∧ s'.all_param_types = s.all_param_types
    ∧ ∃ start news,
        pymax (s.msg_to_id.map Prod.snd) = .ok start
        ∧ s'.msg_to_id = s.msg_to_id ++ news
        ∧ List.Pairwise (· < ·) (news.map Prod.snd)
        ∧ (∀ j ∈ news.map Prod.snd, start < j)
        ∧ (news.map Prod.fst).Nodup
        ∧ (∀ m ∈ news.map Prod.fst, alookup s.msg_to_id m = none) := by
  rw [create_message_ids] at h
  cases hp : pymax (s.msg_to_id.map Prod.snd) with
  | error e => rw [hp] at h; exact absurd h (by simp [Except.map])
  | ok start =>
    rw [hp] at h
    simp only [Except.map, Except.ok.injEq] at h
    obtain ⟨news, heq, hpw, hgt, hnd, hnm⟩ :=
      assignIds_spec s.messages_by_name
        (s.commands.map Prod.fst ++ s.encoders.map Prod.snd)
        s.msg_to_id start (pymax_spec hp)
    refine ⟨by rw [← h], by rw [← h], by rw [← h], by rw [← h],
      start, news, rfl, ?_, hpw, hgt, hnd, hnm⟩
    rw [← h]
    exact heq

/-! ### The baseline inversion -/

theorem invertBaseline_eq_swap {baseline : List (Nat × String)}
    (h : (baseline.map Prod.snd).Nodup) :
    invertBaseline baseline = baseline.map (fun p => (p.2, p.1)) := by
  have main : ∀ (l : List (Nat × String)) (acc : List (String × Nat)),
      (l.map Prod.snd).Nodup → (∀ p ∈ l, p.2 ∉ acc.map Prod.fst) →
      l.foldl (fun acc p => ainsert acc p.2 p.1) acc
        = acc ++ l.map (fun p => (p.2, p.1)) := by
    intro l
    induction l with
    | nil => simp
    | cons q t ih =>
      intro acc hnd hdist
      simp only [List.foldl_cons]
      rw [ainsert_of_not_mem _ (hdist q (List.mem_cons_self _ _))]
      rw [ih (acc ++ [(q.2, q.1)]) (by simpa using hnd.of_cons) ?_]
      · simp
      · intro p hp
        rw [List.map_append, List.mem_append]
        rintro (hacc | hq)
        · exact hdist p (List.mem_cons_of_mem _ hp) hacc
        · simp only [List.map_cons, List.nodup_cons] at hnd
          simp at hq
          exact hnd.1 (hq ▸ List.mem_map_of_mem Prod.snd hp)
  simpa [invertBaseline] using main baseline [] h (by simp)

theorem initState_msg_to_id (baseline : List (Nat × String)) :
    (initState baseline).msg_to_id = invertBaseline baseline := rfl

theorem baseline_alookup {baseline : List (Nat × String)} {i : Nat} {m : String}
    (hf : (baseline.map Prod.snd).Nodup) (hm : (i, m) ∈ baseline) :
    alookup (invertBaseline baseline) m = some i := by
  rw [invertBaseline_eq_swap hf]
  refine mem_alookup ?_ ?_
  · have : (baseline.map (fun p => (p.2, p.1))).map Prod.fst
        = baseline.map Prod.snd := by
      rw [List.map_map]
      rfl
    rw [this]
    exact hf
  · exact List.mem_map_of_mem (fun p => (p.2, p.1)) hm

/-- Injectivity of the final format-to-identifier mapping: with distinct
baseline formats and distinct baseline identifiers, no identifier ends up
attached to two distinct format strings. -/
theorem mid_final_inj {baseline : List (Nat × String)} {reqs : List Req}
    {s s' : GenState}
    (hfn : (baseline.map Prod.snd).Nodup)
    (hid : (baseline.map Prod.fst).Nodup)
    (hp : processAll reqs (initState baseline) = .ok s)
    (hc : create_message_ids s = .ok s')
    {m₁ m₂ : String} {i : Nat}
    (h₁ : alookup s'.msg_to_id m₁ = some i)
    (h₂ : alookup s'.msg_to_id m₂ = some i) : m₁ = m₂ := by
  have hmid : s.msg_to_id = invertBaseline baseline := by
    rw [processAll_msg_to_id hp, initState_msg_to_id]
  obtain ⟨-, -, -, -, start, news, hpm, heq, hpw, hgt, hnd, hnm⟩ :=
    create_message_ids_spec hc
  rw [heq] at h₁ h₂
  have hvnd : (s.msg_to_id.map Prod.snd).Nodup := by
    rw [hmid, invertBaseline_eq_swap hfn, List.map_map]
    exact hid
  have hnewsnd : (news.map Prod.snd).Nodup := hpw.imp (fun h => Nat.ne_of_lt h)
  have hstart : ∀ j ∈ s.msg_to_id.map Prod.snd, j ≤ start := pymax_spec hpm
  rcases alookup_append_cases h₁ with ha₁ | ⟨-, ha₁⟩ <;>
    rcases alookup_append_cases h₂ with ha₂ | ⟨-, ha₂⟩
  · exact snd_nodup_inj hvnd (alookup_mem ha₁) (alookup_mem ha₂)
  · exact absurd (hgt i (List.mem_map_of_mem Prod.snd (alookup_mem ha₂)))
      (not_lt.2 (hstart i (List.mem_map_of_mem Prod.snd (alookup_mem ha₁))))
  · exact absurd (hgt i (List.mem_map_of_mem Prod.snd (alookup_mem ha₁)))
      (not_lt.2 (hstart i (List.mem_map_of_mem Prod.snd (alookup_mem ha₂))))
  · exact snd_nodup_inj hnewsnd (alookup_mem ha₁) (alookup_mem ha₂)

/-- Inversion of `update_data_dictionary`. -/
theorem update_data_dictionary_ok {s s' : GenState} {dd : DataDict}
    (h : update_data_dictionary s = .ok (s', dd)) :
    create_message_ids s = .ok s'
    ∧ dd.messages = s'.msg_to_id.map (fun p => (p.2, p.1))
    ∧ ∃ cs rs,
        mapE (fun p => getId s'.msg_to_id p.2)
          (s'.messages_by_name.filter
            (fun p => (alookup s'.commands p.1).isSome)) = .ok cs
        ∧ mapE (fun p => getId s'.msg_to_id p.2)
          (s'.messages_by_name.filter
            (fun p => !(alookup s'.commands p.1).isSome)) = .ok rs
        ∧ dd.commands = sortNat cs ∧ dd.responses = sortNat rs := by
  rw [update_data_dictionary] at h
  split at h
  · exact absurd h (by simp)
  · next s₁ hc =>
    split at h
    · exact absurd h (by simp)
    · next cs hcs =>
      split at h
      · exact absurd h (by simp)
      · next rs hrs =>
        obtain ⟨rfl, rfl⟩ : s₁ = s' ∧
            ({ messages := s₁.msg_to_id.map (fun p => (p.2, p.1))
               commands := sortNat cs
               responses := sortNat rs } : DataDict) = dd := by
          obtain h' := Except.ok.inj h
          exact ⟨congrArg Prod.fst h', congrArg Prod.snd h'⟩
        exact ⟨hc, rfl, cs, rs, hcs, hrs, rfl, rfl⟩

/-! ### Sample data for concrete runs -/

/-- A trivially instantiated message-format library (no `%` conversions
in the sample formats below): every claim theorem is proved for an
arbitrary `MsgProto`, this instance only feeds the concrete runs. -/
def mpSample : MsgProto := ⟨64, 5, fun _ => [], fun _ => []⟩

/-- Unwrap `Except.ok`, with a default for the (unreached) error case. -/
def okD {α : Type} (d : α) : Except String α → α
  | .ok a => a
  | .error _ => d

def emptyGenState : GenState := ⟨[], [], [], [], []⟩

def emptyDataDict : DataDict := ⟨[], [], []⟩

/-! ### C1 -/

/-- C1: every message of the baseline set keeps exactly its baseline
identifier through `create_message_ids` and `update_data_dictionary`,
whatever the declaration records (any order, any number of new
messages): identifier assignment only appends entries for formats absent
from `msg_to_id`, so a baseline entry is never overwritten. -/
theorem baseline_id_stability
    {baseline : List (Nat × String)} {reqs : List Req} {s s' : GenState}
    {dd : DataDict} {i : Nat} {m : String}
    (hfn : (baseline.map Prod.snd).Nodup)
    (hp : processAll reqs (initState baseline) = .ok s)
    (hu : update_data_dictionary s = .ok (s', dd))
    (hm : (i, m) ∈ baseline) :
    alookup s'.msg_to_id m = some i ∧ (i, m) ∈ dd.messages := by
  obtain ⟨hc, hmsgs, -⟩ := update_data_dictionary_ok hu
  obtain ⟨-, -, -, -, start, news, -, heq, -, -, -, -⟩ :=
    create_message_ids_spec hc
  have hmid : s.msg_to_id = invertBaseline baseline := by
    rw [processAll_msg_to_id hp, initState_msg_to_id]
  have hlook : alookup s'.msg_to_id m = some i := by
    rw [heq, hmid]
    exact alookup_append_left _ (baseline_alookup hfn hm)
  refine ⟨hlook, ?_⟩
  rw [hmsgs]
  exact List.mem_map_of_mem (fun p => (p.2, p.1)) (alookup_mem hlook)

def baselineW1 : List (Nat × String) := [(1, "ping")]

def reqsW1 : List Req :=
  [Req.declOutput "status %u", Req.declCommand "command_move" "0" "move x=%u"]

def sW1 : GenState :=
  okD emptyGenState (processAll reqsW1 (initState baselineW1))

def uW1 : GenState × DataDict :=
  okD (emptyGenState, emptyDataDict) (update_data_dictionary sW1)

theorem baseline_id_stability_witness :
    (baselineW1.map Prod.snd).Nodup
    ∧ processAll reqsW1 (initState baselineW1) = .ok sW1
    ∧ update_data_dictionary sW1 = .ok (uW1.1, uW1.2)
    ∧ (1, "ping") ∈ baselineW1
    ∧ (alookup uW1.1.msg_to_id "ping" = some 1 ∧ (1, "ping") ∈ uW1.2.messages) :=
  ⟨by decide, by rfl, by rfl, by decide,
    @baseline_id_stability baselineW1 reqsW1 sW1 uW1.1 uW1.2 1 "ping"
      (by decide) (by rfl) (by rfl) (by decide)⟩

/-! ### C5 -/

/-- C5: in `create_message_ids`, every newly allocated identifier is
strictly greater than every identifier present at the start (allocation
begins at `max(existing) + 1`), successive allocations are strictly
increasing, the newly mapped formats are pairwise distinct and were not
previously mapped — so no identifier is ever assigned to two distinct
format strings by the allocation. -/
theorem create_ids_fresh_monotone {s s' : GenState}
    (h : create_message_ids s = .ok s') :
    ∃ news, s'.msg_to_id = s.msg_to_id ++ news
      ∧ List.Pairwise (· < ·) (news.map Prod.snd)
      ∧ (∀ i ∈ s.msg_to_id.map Prod.snd, ∀ j ∈ news.map Prod.snd, i < j)
      ∧ (news.map Prod.fst).Nodup
      ∧ (∀ m ∈ news.map Prod.fst, alookup s.msg_to_id m = none) := by
  obtain ⟨-, -, -, -, start, news, hpm, heq, hpw, hgt, hnd, hnm⟩ :=
    create_message_ids_spec h
  exact ⟨news, heq, hpw,
    fun i hi j hj => lt_of_le_of_lt (pymax_spec hpm i hi) (hgt j hj), hnd, hnm⟩

def sW5 : GenState := okD emptyGenState (processAll reqsW1 (initState baselineW1))

def sW5' : GenState := okD emptyGenState (create_message_ids sW5)

theorem create_ids_fresh_monotone_witness :
    create_message_ids sW5 = .ok sW5'
    ∧ ∃ news, sW5'.msg_to_id = sW5.msg_to_id ++ news
      ∧ List.Pairwise (· < ·) (news.map Prod.snd)
      ∧ (∀ i ∈ sW5.msg_to_id.map Prod.snd, ∀ j ∈ news.map Prod.snd, i < j)
      ∧ (news.map Prod.fst).Nodup
      ∧ (∀ m ∈ news.map Prod.fst, alookup sW5.msg_to_id m = none) :=
  ⟨by rfl, @create_ids_fresh_monotone sW5 sW5' (by rfl)⟩

/-! ### C10 -/

/-- C10: a second `_DECL_COMMAND` for an already-declared command name is
immediately fatal even when handler, flags and format are all identical
to the first declaration: `decl_command` rejects any `msgname` already in
`self.commands` before looking at the new content (`error()` prints the
message and exits the process with status `-1`). -/
theorem redeclare_command_fatal {s s' : GenState} {f fl msg : String}
    (h : decl_command s f fl msg = .ok s') :
    decl_command s' f fl msg
      = .error ("Multiple definitions for command " ++ firstToken msg) := by
  obtain ⟨-, -, rfl⟩ := decl_command_ok h
  rw [decl_command]
  have hl : alookup (ainsert s.commands (firstToken msg)
      (f, fl, firstToken msg)) (firstToken msg)
      = some (f, fl, firstToken msg) := alookup_ainsert_self _ _ _
  have : (alookup ({ s with
      commands := ainsert s.commands (firstToken msg) (f, fl, firstToken msg)
      messages_by_name :=
        ainsert s.messages_by_name (firstToken msg) msg } : GenState).commands
      (firstToken msg)).isSome = true := by
    rw [show ({ s with
      commands := ainsert s.commands (firstToken msg) (f, fl, firstToken msg)
      messages_by_name :=
        ainsert s.messages_by_name (firstToken msg) msg } : GenState).commands
      = ainsert s.commands (firstToken msg) (f, fl, firstToken msg) from rfl, hl]
    rfl
  rw [if_pos this]

def sW10 : GenState :=
  okD emptyGenState (decl_command (initState baselineW1) "command_move" "0" "move x=%u")

theorem redeclare_command_fatal_witness :
    decl_command (initState baselineW1) "command_move" "0" "move x=%u" = .ok sW10
    ∧ decl_command sW10 "command_move" "0" "move x=%u"
      = .error ("Multiple definitions for command " ++ firstToken "move x=%u") :=
  ⟨by rfl, @redeclare_command_fatal (initState baselineW1) sW10
    "command_move" "0" "move x=%u" (by rfl)⟩

/-! ### C3 -/

/-- After a successful `_DECL_COMMAND`, the message name stays registered
as a command and keeps its format string in `messages_by_name` through
any further successful declarations. -/
def DeclaredCmd (name fmt : String) (s : GenState) : Prop :=
  (alookup s.commands name).isSome = true
  ∧ alookup s.messages_by_name name = some fmt

theorem decl_command_DeclaredCmd {s s' : GenState} {f fl msg : String}
    (h : decl_command s f fl msg = .ok s') :
    DeclaredCmd (firstToken msg) msg s' := by
  obtain ⟨-, -, rfl⟩ := decl_command_ok h
  refine ⟨?_, ?_⟩
  · show (alookup (ainsert s.commands (firstToken msg)
      (f, fl, firstToken msg)) (firstToken msg)).isSome = true
    rw [alookup_ainsert_self]
    rfl
  · exact alookup_ainsert_self _ _ _

theorem applyReq_DeclaredCmd {name fmt : String} {s s' : GenState} {r : Req}
    (hi : DeclaredCmd name fmt s) (h : applyReq s r = .ok s') :
    DeclaredCmd name fmt s' := by
  cases r with
  | declCommand f fl m =>
    obtain ⟨hns, hconf, rfl⟩ := decl_command_ok h
    have hne : name ≠ firstToken m := by
      intro he
      rw [← he, hi.1] at hns
      exact absurd hns (by simp)
    exact ⟨by rw [show ({ s with
        commands := ainsert s.commands (firstToken m) (f, fl, firstToken m)
        messages_by_name := ainsert s.messages_by_name (firstToken m) m }
          : GenState).commands = ainsert s.commands (firstToken m)
          (f, fl, firstToken m) from rfl,
        alookup_ainsert_ne _ _ hne]; exact hi.1,
      by rw [show ({ s with
        commands := ainsert s.commands (firstToken m) (f, fl, firstToken m)
        messages_by_name := ainsert s.messages_by_name (firstToken m) m }
          : GenState).messages_by_name
          = ainsert s.messages_by_name (firstToken m) m from rfl,
        alookup_ainsert_ne _ _ hne]; exact hi.2⟩
  | declEncoder m =>
    obtain ⟨hconf, rfl⟩ := decl_encoder_ok h
    by_cases he : name = firstToken m
    · have hfmt : fmt = m := hconf fmt (he ▸ hi.2)
      refine ⟨hi.1, ?_⟩
      show alookup (ainsert s.messages_by_name (firstToken m) m) name = some fmt
      rw [he, alookup_ainsert_self, hfmt]
    · refine ⟨hi.1, ?_⟩
      show alookup (ainsert s.messages_by_name (firstToken m) m) name = some fmt
      rw [alookup_ainsert_ne _ _ he]
      exact hi.2
  | declOutput m =>
    obtain rfl := Except.ok.inj h
    exact hi

theorem processAll_DeclaredCmd {name fmt : String} {reqs : List Req}
    {s s' : GenState} (hi : DeclaredCmd name fmt s)
    (h : processAll reqs s = .ok s') : DeclaredCmd name fmt s' := by
  induction reqs generalizing s with
  | nil => exact (Except.ok.inj h) ▸ hi
  | cons r rs ih =>
    rw [processAll] at h
    cases ha : applyReq s r with
    | error e => rw [ha] at h; exact absurd h (by simp)
    | ok s₁ =>
      rw [ha] at h
      exact ih (applyReq_DeclaredCmd hi ha) h

/-- A later declaration of the same message name with a different format
string is rejected: as a command it trips the Multiple-definitions check,
as an encoder it trips the Conflicting-definition check. -/
theorem conflicting_redecl_errors {name fmt g : String} {s : GenState} {r : Req}
    (hi : DeclaredCmd name fmt s)
    (hr : (∃ f' fl', r = Req.declCommand f' fl' g) ∨ r = Req.declEncoder g)
    (hft : firstToken g = name) (hne : g ≠ fmt) :
    ∃ e, applyReq s r = .error e := by
  rcases hr with ⟨f', fl', rfl⟩ | rfl
  · rw [applyReq, decl_command]
    rw [show firstToken g = name from hft]
    rw [if_pos hi.1]
    exact ⟨_, rfl⟩
  · rw [applyReq, decl_encoder]
    rw [show firstToken g = name from hft, hi.2]
    exact ⟨_, if_pos (fun he => hne he.symm)⟩

theorem processAll_append_ok {xs ys : List Req} {s t : GenState}
    (h : processAll xs s = .ok t) :
    processAll (xs ++ ys) s = processAll ys t := by
  rw [processAll_append, h]

theorem processAll_append_error {xs ys : List Req} {s : GenState} {e : String}
    (h : processAll xs s = .error e) :
    processAll (xs ++ ys) s = .error e := by
  rw [processAll_append, h]

theorem processAll_singleton (r : Req) (s : GenState) :
    processAll [r] s = applyReq s r := by
  cases h : applyReq s r <;> simp [processAll, h]

theorem runBuild_of_processAll_error {mp : MsgProto}
    {baseline : List (Nat × String)} {reqs : List Req} {e : String}
    (gitver btime hostname extra toolstr : String)
    (h : processAll reqs (initState baseline) = .error e) :
    runBuild mp baseline reqs gitver btime hostname extra toolstr = .error e := by
  rw [runBuild, h]

/-- C3: a declaration sequence that declares a command with some format
and later re-declares the same message name (as command or encoder) with
a different format string makes the build fail: `processAll` (and hence
`runBuild`, which writes output only on the success path) returns an
error, so the process exits with non-zero status and no output file is
produced. -/
theorem conflicting_declaration_aborts
    (mp : MsgProto) (baseline : List (Nat × String))
    (pre mids post : List Req) (hn fl f g : String) (r2 : Req)
    (gitver btime hostname extra toolstr : String)
    (hr2 : (∃ f' fl', r2 = Req.declCommand f' fl' g) ∨ r2 = Req.declEncoder g)
    (hft : firstToken g = firstToken f)
    (hne : g ≠ f) :
    ∃ e, runBuild mp baseline
        (pre ++ [Req.declCommand hn fl f] ++ mids ++ [r2] ++ post)
        gitver btime hostname extra toolstr = .error e := by
  suffices hs : ∃ e, processAll
      (pre ++ [Req.declCommand hn fl f] ++ mids ++ [r2] ++ post)
      (initState baseline) = .error e by
    obtain ⟨e, he⟩ := hs
    exact ⟨e, runBuild_of_processAll_error _ _ _ _ _ he⟩
  simp only [List.append_assoc]
  cases hpre : processAll pre (initState baseline) with
  | error e => exact ⟨e, processAll_append_error hpre⟩
  | ok s₁ =>
    rw [processAll_append_ok hpre]
    cases hd : applyReq s₁ (Req.declCommand hn fl f) with
    | error e =>
      exact ⟨e, processAll_append_error ((processAll_singleton _ _).trans hd)⟩
    | ok s₂ =>
      rw [processAll_append_ok ((processAll_singleton _ _).trans hd)]
      have hdc : DeclaredCmd (firstToken f) f s₂ := decl_command_DeclaredCmd hd
      cases hmid : processAll mids s₂ with
      | error e => exact ⟨e, processAll_append_error hmid⟩
      | ok s₃ =>
        rw [processAll_append_ok hmid]
        have hdc₃ : DeclaredCmd (firstToken f) f s₃ :=
          processAll_DeclaredCmd hdc hmid
        obtain ⟨e, he⟩ := conflicting_redecl_errors hdc₃ hr2 hft hne
        exact ⟨e, processAll_append_error ((processAll_singleton _ _).trans he)⟩

theorem conflicting_declaration_aborts_witness :
    firstToken "a %hu" = firstToken "a %u"
    ∧ "a %hu" ≠ "a %u"
    ∧ ∃ e, runBuild mpSample baselineW1
        ([] ++ [Req.declCommand "command_a" "0" "a %u"]
          ++ [] ++ [Req.declCommand "command_b" "0" "a %hu"] ++ [])
        "" "t" "hostx" "" "ts" = .error e :=
  ⟨by decide, by decide,
    conflicting_declaration_aborts mpSample baselineW1 [] [] []
      "command_a" "0" "a %u" "a %hu" (Req.declCommand "command_b" "0" "a %hu")
      "" "t" "hostx" "" "ts"
      (Or.inl ⟨"command_b", "0", rfl⟩) (by decide) (by decide)⟩

/-! ### C4 -/

theorem getId_ok {mid : List (String × Nat)} {m : String} {i : Nat}
    (h : getId mid m = .ok i) : alookup mid m = some i := by
  rw [getId] at h
  cases hl : alookup mid m with
  | none => rw [hl] at h; exact absurd h (by simp)
  | some w =>
    rw [hl] at h
    have h' : (Except.ok w : Except String Nat) = .ok i := h
    exact congrArg some (Except.ok.inj h')

/-- Checks the union clause of the partition claim on a data dictionary:
the identifiers of `messages` against `commands + responses`. -/
def unionEqMessages (dd : DataDict) : Bool :=
  (dd.messages.map Prod.fst).all (fun i => (dd.commands ++ dd.responses).contains i)
  && (dd.commands ++ dd.responses).all (fun i => (dd.messages.map Prod.fst).contains i)

/-- C4 counterexample: one `_DECL_OUTPUT "hello %u"` on top of the
baseline `{1: "ping"}`.  The output format is assigned identifier 2 and
appears in `messages`, but `commands = []` and `responses = [1]`: the
union of the two lists misses an assigned identifier, so it does not
equal the assigned-identifier set and identifier 2 is classified as
neither command nor response. -/
theorem partition_union_counterexample :
    ((processAll [Req.declOutput "hello %u"] (initState [(1, "ping")])).bind
      update_data_dictionary).map (fun p => unionEqMessages p.2)
      = .ok false := by rfl

/-- C4 (amended): the `commands` and `responses` identifier lists are
disjoint, and their union equals the set of identifiers of the named
messages — those registered in `messages_by_name`; identifiers that
`create_message_ids` allocates to anonymous output formats appear in
`messages` but in neither list. -/
theorem partition_amended
    {baseline : List (Nat × String)} {reqs : List Req} {s s' : GenState}
    {dd : DataDict}
    (hfn : (baseline.map Prod.snd).Nodup)
    (hid : (baseline.map Prod.fst).Nodup)
    (hp : processAll reqs (initState baseline) = .ok s)
    (hu : update_data_dictionary s = .ok (s', dd)) :
    (∀ i, i ∈ dd.commands → i ∉ dd.responses)
    ∧ (∀ i, (i ∈ dd.commands ∨ i ∈ dd.responses) ↔
        ∃ p ∈ s'.messages_by_name, alookup s'.msg_to_id p.2 = some i) := by
  obtain ⟨hc, hmsgs, cs, rs, hcs, hrs, hdc, hdr⟩ := update_data_dictionary_ok hu
  have hwf : MbnWF s' := by
    have h1 : MbnWF s := processAll_MbnWF (initState_MbnWF baseline) hp
    have h2 : s'.messages_by_name = s.messages_by_name :=
      (create_message_ids_spec hc).2.2.1
    intro p hp'
    exact h1 p (h2 ▸ hp')
  have hinj : ∀ m₁ m₂ i, alookup s'.msg_to_id m₁ = some i →
      alookup s'.msg_to_id m₂ = some i → m₁ = m₂ :=
    fun m₁ m₂ i h₁ h₂ => mid_final_inj hfn hid hp hc h₁ h₂
  have hmemc : ∀ i, i ∈ dd.commands →
      ∃ p ∈ s'.messages_by_name,
        (alookup s'.commands p.1).isSome = true
        ∧ alookup s'.msg_to_id p.2 = some i := by
    intro i hi
    rw [hdc, mem_sortNat] at hi
    obtain ⟨p, hpmem, hpid⟩ := mapE_ok_forward hcs hi
    rw [List.mem_filter] at hpmem
    exact ⟨p, hpmem.1, hpmem.2, getId_ok hpid⟩
  have hmemr : ∀ i, i ∈ dd.responses →
      ∃ p ∈ s'.messages_by_name,
        (alookup s'.commands p.1).isSome = false
        ∧ alookup s'.msg_to_id p.2 = some i := by
    intro i hi
    rw [hdr, mem_sortNat] at hi
    obtain ⟨p, hpmem, hpid⟩ := mapE_ok_forward hrs hi
    rw [List.mem_filter] at hpmem
    exact ⟨p, hpmem.1, by simpa using hpmem.2, getId_ok hpid⟩
  constructor
  · intro i hic hir
    obtain ⟨p₁, hm₁, hb₁, hl₁⟩ := hmemc i hic
    obtain ⟨p₂, hm₂, hb₂, hl₂⟩ := hmemr i hir
    have hfmt : p₁.2 = p₂.2 := hinj _ _ i hl₁ hl₂
    have hname : p₁.1 = p₂.1 := by
      rw [hwf p₁ hm₁, hwf p₂ hm₂, hfmt]
    rw [hname, hb₂] at hb₁
    exact absurd hb₁ (by simp)
  · intro i
    constructor
    · rintro (hi | hi)
      · obtain ⟨p, hm, -, hl⟩ := hmemc i hi
        exact ⟨p, hm, hl⟩
      · obtain ⟨p, hm, -, hl⟩ := hmemr i hi
        exact ⟨p, hm, hl⟩
    · rintro ⟨p, hm, hl⟩
      by_cases hb : (alookup s'.commands p.1).isSome
      · left
        rw [hdc, mem_sortNat]
        have hpf : p ∈ s'.messages_by_name.filter
            (fun p => (alookup s'.commands p.1).isSome) :=
          List.mem_filter.2 ⟨hm, hb⟩
        obtain ⟨y, hy, hgy⟩ := mapE_ok_backward hcs hpf
        have : y = i := Option.some.inj ((getId_ok hgy).symm.trans hl)
        exact this ▸ hy
      · right
        rw [hdr, mem_sortNat]
        have hpf : p ∈ s'.messages_by_name.filter
            (fun p => !(alookup s'.commands p.1).isSome) :=
          List.mem_filter.2 ⟨hm, by simpa using hb⟩
        obtain ⟨y, hy, hgy⟩ := mapE_ok_backward hrs hpf
        have : y = i := Option.some.inj ((getId_ok hgy).symm.trans hl)
        exact this ▸ hy

def reqsW4 : List Req :=
  [Req.declCommand "command_move" "0" "move x=%u",
   Req.declEncoder "pong", Req.declOutput "dbg %u"]

def sW4 : GenState := okD emptyGenState (processAll reqsW4 (initState baselineW1))

def uW4 : GenState × DataDict :=
  okD (emptyGenState, emptyDataDict) (update_data_dictionary sW4)

theorem partition_amended_witness :
    (baselineW1.map Prod.snd).Nodup ∧ (baselineW1.map Prod.fst).Nodup
    ∧ processAll reqsW4 (initState baselineW1) = .ok sW4
    ∧ update_data_dictionary sW4 = .ok (uW4.1, uW4.2)
    ∧ ((∀ i, i ∈ uW4.2.commands → i ∉ uW4.2.responses)
      ∧ (∀ i, (i ∈ uW4.2.commands ∨ i ∈ uW4.2.responses) ↔
          ∃ p ∈ uW4.1.messages_by_name, alookup uW4.1.msg_to_id p.2 = some i)) :=
  ⟨by decide, by decide, by rfl, by rfl,
    @partition_amended baselineW1 reqsW4 sW4 uW4.1 uW4.2
      (by decide) (by decide) (by rfl) (by rfl)⟩

/-! ### C2 -/

/-- C2 counterexample: two runs over the identical baseline
`{1: "ping"}` and the identical declaration records, executed at two
different build times, both succeed yet produce different identify
documents — the document embeds the `build_version()` string, which
contains the build timestamp (and hostname), so identical declarations
and baseline alone do not make the schema bytes identical. -/
theorem determinism_counterexample :
    ((runBuild mpSample [(1, "ping")] [Req.declCommand "command_mv" "0" "mv"]
        "" "20200101_000000" "hosta" "" "gcc: 1 binutils: 1").toOption).isSome = true
    ∧ ((runBuild mpSample [(1, "ping")] [Req.declCommand "command_mv" "0" "mv"]
        "" "20200102_000000" "hosta" "" "gcc: 1 binutils: 1").toOption).isSome = true
    ∧ okD "" ((runBuild mpSample [(1, "ping")]
          [Req.declCommand "command_mv" "0" "mv"]
          "" "20200101_000000" "hosta" "" "gcc: 1 binutils: 1").map Prod.snd)
      ≠ okD "" ((runBuild mpSample [(1, "ping")]
          [Req.declCommand "command_mv" "0" "mv"]
          "" "20200102_000000" "hosta" "" "gcc: 1 binutils: 1").map Prod.snd) :=
  ⟨by rfl, by rfl, by decide⟩

/-- C2 (amended): with identical declaration records, identical baseline
(and message-format library) and additionally identical version inputs
(git description, build time, hostname, extra suffix) and toolchain
string, two runs produce identical generated code and identical identify
documents; the identifier assignment of `create_message_ids` depends
only on the declarations and the baseline, so it agrees between the two
runs even without fixing the version inputs. -/
theorem determinism_amended
    (mp₁ mp₂ : MsgProto) (b₁ b₂ : List (Nat × String)) (r₁ r₂ : List Req)
    (g₁ g₂ t₁ t₂ h₁ h₂ e₁ e₂ ts₁ ts₂ : String)
    (hmp : mp₁ = mp₂) (hb : b₁ = b₂) (hr : r₁ = r₂) (hg : g₁ = g₂)
    (ht : t₁ = t₂) (hh : h₁ = h₂) (he : e₁ = e₂) (hts : ts₁ = ts₂) :
    runBuild mp₁ b₁ r₁ g₁ t₁ h₁ e₁ ts₁ = runBuild mp₂ b₂ r₂ g₂ t₂ h₂ e₂ ts₂
    ∧ (processAll r₁ (initState b₁)).bind create_message_ids
      = (processAll r₂ (initState b₂)).bind create_message_ids := by
  subst hmp hb hr hg ht hh he hts
  exact ⟨rfl, rfl⟩

theorem determinism_amended_witness :
    mpSample = mpSample ∧ baselineW1 = baselineW1 ∧ reqsW4 = reqsW4
    ∧ (runBuild mpSample baselineW1 reqsW4 "" "t0" "hostx" "" "ts"
        = runBuild mpSample baselineW1 reqsW4 "" "t0" "hostx" "" "ts"
      ∧ (processAll reqsW4 (initState baselineW1)).bind create_message_ids
        = (processAll reqsW4 (initState baselineW1)).bind create_message_ids) :=
  ⟨rfl, rfl, rfl,
    determinism_amended mpSample mpSample baselineW1 baselineW1 reqsW4 reqsW4
      "" "" "t0" "t0" "hostx" "hostx" "" "" "ts" "ts"
      rfl rfl rfl rfl rfl rfl rfl rfl⟩

/-! ### C9 -/

/-- C9 counterexample: running over the baseline `{1: "ping"}` with no
declarations at all (zero commands), `generate_commands_code` does not
produce an empty dispatch table: `max(cmd_by_id.keys())` raises
`ValueError` on the empty sequence and the build fails. -/
theorem empty_commands_counterexample :
    (processAll [] (initState [(1, "ping")])).bind
        (fun s => (generate_commands_code mpSample s s.all_param_types).map
          Prod.fst)
      = .error "max() arg is an empty sequence" := by rfl

/-- C9 (amended): with zero declared commands, `cmd_by_id` is empty and
`generate_commands_code` fails with the `max()`-on-empty-sequence error
instead of emitting a valid empty table: a non-empty command set is
required for table emission. -/
theorem empty_commands_fails (mp : MsgProto) (s : GenState)
    (tbl : List (List String × Nat)) (h : s.commands = []) :
    generate_commands_code mp s tbl = .error "max() arg is an empty sequence" := by
  have hcb : cmdById s = .ok [] := by rw [cmdById, h]; rfl
  rw [generate_commands_code, hcb, commandEntries, hcb]
  rfl

theorem empty_commands_fails_witness :
    (initState baselineW1).commands = []
    ∧ generate_commands_code mpSample (initState baselineW1) []
      = .error "max() arg is an empty sequence" :=
  ⟨by rfl, empty_commands_fails mpSample (initState baselineW1) [] (by rfl)⟩

/-! ### C7 -/

theorem alookup_none_iff_not_mem {K V : Type} [DecidableEq K]
    {l : List (K × V)} {k : K} :
    alookup l k = none ↔ k ∉ l.map Prod.fst := by
  induction l with
  | nil => simp [alookup]
  | cons p t ih =>
    rw [alookup]
    by_cases hp : p.1 = k
    · simp [hp]
    · rw [if_neg hp]
      simp only [List.map_cons, List.mem_cons, ih]
      constructor
      · rintro hn (he | hm)
        · exact hp he.symm
        · exact hn hm
      · intro hn hm
        exact hn (Or.inr hm)

/-- Well-formedness of the `all_param_types` table: the stored indices
are exactly `0, 1, ..., len - 1` in insertion order, and the stored
signatures are pairwise distinct. -/
def WfTbl (T : List (List String × Nat)) : Prop :=
  T.map Prod.snd = List.range T.length ∧ (T.map Prod.fst).Nodup

theorem internTypes_wf {T : List (List String × Nat)} {t : List String}
    (h : WfTbl T) : WfTbl (internTypes T t).1 := by
  rw [internTypes]
  cases hl : alookup T t with
  | some i => exact h
  | none =>
    refine ⟨?_, ?_⟩
    · show (T ++ [(t, T.length)]).map Prod.snd
        = List.range (T ++ [(t, T.length)]).length
      rw [List.map_append, List.length_append, h.1]
      simp [List.range_succ]
    · show ((T ++ [(t, T.length)]).map Prod.fst).Nodup
      rw [List.map_append]
      rw [List.nodup_append]
      refine ⟨h.2, by simp, ?_⟩
      intro x hx hx'
      simp only [List.map_cons, List.map_nil, List.mem_singleton] at hx'
      exact (alookup_none_iff_not_mem.1 hl) (hx' ▸ hx)

theorem internTypes_lookup_self (T : List (List String × Nat))
    (t : List String) :
    alookup (internTypes T t).1 t = some (internTypes T t).2 := by
  rw [internTypes]
  cases hl : alookup T t with
  | some i => exact hl
  | none =>
    show alookup (T ++ [(t, T.length)]) t = some T.length
    rw [alookup_append, hl]
    show alookup [(t, T.length)] t = some T.length
    rw [alookup, if_pos rfl]

theorem internTypes_stable {T : List (List String × Nat)} {t : List String}
    {i : Nat} (h : alookup T t = some i) : internTypes T t = (T, i) := by
  rw [internTypes, h]

/-- The table after any sequence of interning calls, starting from the
empty table of `__init__` (the interning steps `buildParser` performs
across all messages of a build). -/
def internAll (ts : List (List String)) : List (List String × Nat) :=
  ts.foldl (fun tb t => (internTypes tb t).1) []

theorem internAll_wf (ts : List (List String)) : WfTbl (internAll ts) := by
  have main : ∀ (l : List (List String)) (T : List (List String × Nat)),
      WfTbl T → WfTbl (l.foldl (fun tb t => (internTypes tb t).1) T) := by
    intro l
    induction l with
    | nil => intro T h; exact h
    | cons t ts ih =>
      intro T h
      exact ih _ (internTypes_wf h)
  exact main ts [] ⟨rfl, List.nodup_nil⟩

/-- C7: interning over `all_param_types` — starting from the empty table,
indices are a monotonic counter from zero assigned in first-seen order
(the stored indices are exactly `range len`, and signatures are pairwise
distinct); re-interning a signature returns its existing index and
leaves the table unchanged (equal lists map to the same index), and a
structurally different signature never receives that index. -/
theorem intern_type_signature_spec (ts : List (List String))
    (t₁ t₂ : List String) (hne : t₁ ≠ t₂) :
    (internAll ts).map Prod.snd = List.range (internAll ts).length
    ∧ ((internAll ts).map Prod.fst).Nodup
    ∧ internTypes (internTypes (internAll ts) t₁).1 t₁
      = internTypes (internAll ts) t₁
    ∧ (internTypes (internTypes (internAll ts) t₁).1 t₂).2
      ≠ (internTypes (internAll ts) t₁).2 := by
  obtain ⟨hrange, hnd⟩ := internAll_wf ts
  have hwf₁ : WfTbl (internTypes (internAll ts) t₁).1 :=
    internTypes_wf ⟨hrange, hnd⟩
  have hself : alookup (internTypes (internAll ts) t₁).1 t₁
      = some (internTypes (internAll ts) t₁).2 :=
    internTypes_lookup_self _ _
  refine ⟨hrange, hnd, ?_, ?_⟩
  · have := internTypes_stable hself
    rw [this]
  · set T₁ := (internTypes (internAll ts) t₁).1 with hT₁
    set i₁ := (internTypes (internAll ts) t₁).2 with hi₁
    rw [internTypes]
    cases hl : alookup T₁ t₂ with
    | some j =>
      show j ≠ i₁
      intro he
      subst he
      have hvnd : (T₁.map Prod.snd).Nodup := by
        rw [hwf₁.1]
        exact List.nodup_range _
      exact hne (snd_nodup_inj hvnd (alookup_mem hself) (alookup_mem hl))
    | none =>
      show T₁.length ≠ i₁
      intro he
      have : i₁ ∈ T₁.map Prod.snd :=
        List.mem_map_of_mem Prod.snd (alookup_mem hself)
      rw [hwf₁.1, ← he] at this
      exact absurd (List.mem_range.1 this) (lt_irrefl _)

theorem intern_type_signature_spec_witness :
    (["PT_uint32", "PT_byte"] : List String) ≠ ["PT_uint32"]
    ∧ ((internAll [["PT_uint32", "PT_byte"], ["PT_uint32"]]).map Prod.snd
        = List.range (internAll [["PT_uint32", "PT_byte"], ["PT_uint32"]]).length
      ∧ ((internAll [["PT_uint32", "PT_byte"], ["PT_uint32"]]).map Prod.fst).Nodup
      ∧ internTypes (internTypes (internAll [["PT_uint32", "PT_byte"],
            ["PT_uint32"]]) ["PT_uint32", "PT_byte"]).1 ["PT_uint32", "PT_byte"]
        = internTypes (internAll [["PT_uint32", "PT_byte"], ["PT_uint32"]])
            ["PT_uint32", "PT_byte"]
      ∧ (internTypes (internTypes (internAll [["PT_uint32", "PT_byte"],
            ["PT_uint32"]]) ["PT_uint32", "PT_byte"]).1 ["PT_uint32"]).2
        ≠ (internTypes (internAll [["PT_uint32", "PT_byte"], ["PT_uint32"]])
            ["PT_uint32", "PT_byte"]).2) :=
  ⟨by decide,
    intern_type_signature_spec [["PT_uint32", "PT_byte"], ["PT_uint32"]]
      ["PT_uint32", "PT_byte"] ["PT_uint32"] (by decide)⟩

/-! ### C6 -/

/-- Per-slot behaviour of the `generate_commands_code` loop: one entry
per identifier in the given list, a gap placeholder where no command is
registered and a populated entry carrying the command's flags and
handler name where one is. -/
theorem cmdLoop_spec {mp : MsgProto} {mbn : List (String × String)}
    {cb : List (Nat × (String × String × String))} {ids : List Nat}
    {tbl tbl' : List (List String × Nat)} {entries : List CEntry}
    (h : cmdLoop mp mbn cb ids tbl = .ok (entries, tbl')) :
    entries.length = ids.length
    ∧ ∀ j (hj : j < ids.length),
        (alookup cb (ids.get ⟨j, hj⟩) = none →
          entries.get? j = some CEntry.gap)
        ∧ (∀ f fl n, alookup cb (ids.get ⟨j, hj⟩) = some (f, fl, n) →
            ∃ pc, entries.get? j = some (CEntry.cmd pc fl f)) := by
  induction ids generalizing tbl tbl' entries with
  | nil =>
    rw [cmdLoop] at h
    have h' : (([], tbl) : List CEntry × List (List String × Nat))
        = (entries, tbl') := Except.ok.inj h
    obtain rfl : ([] : List CEntry) = entries := congrArg Prod.fst h'
    exact ⟨rfl, fun j hj => absurd hj (by simp)⟩
  | cons i is ih =>
    rw [cmdLoop] at h
    cases hcb : alookup cb i with
    | none =>
      rw [hcb] at h
      cases hrec : cmdLoop mp mbn cb is tbl with
      | error e => rw [hrec] at h; exact absurd h (by simp [Except.map])
      | ok r =>
        rw [hrec] at h
        simp only [Except.map, Except.ok.injEq] at h
        obtain rfl : CEntry.gap :: r.1 = entries := congrArg Prod.fst h
        have hrec2 : cmdLoop mp mbn cb is tbl = .ok (r.1, r.2) := by
          rw [hrec]
        obtain ⟨hlen, hidx⟩ := ih hrec2
        refine ⟨by simpa using hlen, ?_⟩
        intro j hj
        cases j with
        | zero =>
          refine ⟨fun _ => rfl, fun f fl n hs => ?_⟩
          rw [show (i :: is).get ⟨0, hj⟩ = i from rfl, hcb] at hs
          exact absurd hs (by simp)
        | succ j' =>
          have hj' : j' < is.length := by simpa using hj
          obtain ⟨h1, h2⟩ := hidx j' hj'
          exact ⟨h1, h2⟩
    | some c =>
      obtain ⟨f, fl, n⟩ := c
      rw [hcb] at h
      dsimp only at h
      cases hmbn : alookup mbn n with
      | none => rw [hmbn] at h; exact absurd h (by simp)
      | some msg =>
        rw [hmbn] at h
        dsimp only at h
        rcases hb : buildParser mp tbl false i msg true with ⟨tbl₂, pc⟩
        rw [hb] at h
        dsimp only at h
        cases hrec : cmdLoop mp mbn cb is tbl₂ with
        | error e => rw [hrec] at h; exact absurd h (by simp [Except.map])
        | ok r =>
          rw [hrec] at h
          simp only [Except.map, Except.ok.injEq] at h
          obtain rfl : CEntry.cmd pc fl f :: r.1 = entries := congrArg Prod.fst h
          have hrec2 : cmdLoop mp mbn cb is tbl₂ = .ok (r.1, r.2) := by
            rw [hrec]
          obtain ⟨hlen, hidx⟩ := ih hrec2
          refine ⟨by simpa using hlen, ?_⟩
          intro j hj
          cases j with
          | zero =>
            refine ⟨fun hnone => ?_, fun f' fl' n' hs => ?_⟩
            · rw [show (i :: is).get ⟨0, hj⟩ = i from rfl, hcb] at hnone
              exact absurd hnone (by simp)
            · rw [show (i :: is).get ⟨0, hj⟩ = i from rfl, hcb] at hs
              have he := Option.some.inj hs
              obtain ⟨rfl, he2⟩ : f = f' ∧ (fl, n) = (fl', n') :=
                ⟨congrArg Prod.fst he, congrArg Prod.snd he⟩
              obtain rfl : fl = fl' := congrArg Prod.fst he2
              exact ⟨pc, rfl⟩
          | succ j' =>
            have hj' : j' < is.length := by simpa using hj
            obtain ⟨h1, h2⟩ := hidx j' hj'
            exact ⟨h1, h2⟩

/-- C6: for a non-empty command registry, the dispatch table is dense:
exactly `max_cmd_msgid + 1` entries indexed 0 through the maximum command
identifier; identifiers with no registered command yield the empty gap
placeholder (no handler, no parameters), identifiers with a command yield
an entry referencing that command's handler function and flags. -/
theorem dense_dispatch_table {mp : MsgProto} {s : GenState}
    {cb : List (Nat × (String × String × String))} {mx : Nat}
    {tbl tbl' : List (List String × Nat)} {entries : List CEntry}
    (hc : s.commands ≠ [])
    (hcb : cmdById s = .ok cb)
    (hmx : pymax (cb.map Prod.fst) = .ok mx)
    (hce : commandEntries mp s tbl = .ok (entries, tbl')) :
    entries.length = mx + 1
    ∧ (∀ i, i ≤ mx → alookup cb i = none →
        entries.get? i = some CEntry.gap)
    ∧ (∀ i f fl n, i ≤ mx → alookup cb i = some (f, fl, n) →
        ∃ pc, entries.get? i = some (CEntry.cmd pc fl f)) := by
  have hloop : cmdLoop mp s.messages_by_name cb (List.range (mx + 1)) tbl
      = .ok (entries, tbl') := by
    rw [commandEntries] at hce
    simp only [hcb, hmx] at hce
    exact hce
  obtain ⟨hlen, hidx⟩ := cmdLoop_spec hloop
  rw [List.length_range] at hlen
  refine ⟨hlen, ?_, ?_⟩
  · intro i hi hnone
    have hj : i < (List.range (mx + 1)).length := by
      rw [List.length_range]
      omega
    obtain ⟨h1, -⟩ := hidx i hj
    rw [List.get_range] at h1
    exact h1 hnone
  · intro i f fl n hi hsome
    have hj : i < (List.range (mx + 1)).length := by
      rw [List.length_range]
      omega
    obtain ⟨-, h2⟩ := hidx i hj
    rw [List.get_range] at h2
    exact h2 f fl n hsome

def sW6 : GenState :=
  okD emptyGenState
    ((processAll reqsW4 (initState baselineW1)).bind create_message_ids)

def cbW6 : List (Nat × (String × String × String)) := okD [] (cmdById sW6)

def ceW6 : List CEntry × List (List String × Nat) :=
  okD ([], []) (commandEntries mpSample sW6 [])

theorem dense_dispatch_table_witness :
    sW6.commands ≠ []
    ∧ cmdById sW6 = .ok cbW6
    ∧ pymax (cbW6.map Prod.fst) = .ok 2
    ∧ commandEntries mpSample sW6 [] = .ok (ceW6.1, ceW6.2)
    ∧ (ceW6.1.length = 2 + 1
      ∧ (∀ i, i ≤ 2 → alookup cbW6 i = none →
          ceW6.1.get? i = some CEntry.gap)
      ∧ (∀ i f fl n, i ≤ 2 → alookup cbW6 i = some (f, fl, n) →
          ∃ pc, ceW6.1.get? i = some (CEntry.cmd pc fl f))) :=
  ⟨by decide, by rfl, by rfl, by rfl,
    @dense_dispatch_table mpSample sW6 cbW6 2 [] ceW6.2 ceW6.1
      (by decide) (by rfl) (by rfl) (by rfl)⟩

/-! ### C8 -/

theorem contains_iff_mem {l : List Nat} {i : Nat} :
    l.contains i = true ↔ i ∈ l := by
  simp [List.contains, List.elem_iff]

theorem respLoop_append_ok {mp : MsgProto} {mid : List (String × Nat)}
    {es : List (Option String × String)} {acc r : RespAcc}
    (ys : List (Option String × String))
    (h : respLoop mp mid es acc = .ok r) :
    respLoop mp mid (es ++ ys) acc = respLoop mp mid ys r := by
  induction es generalizing acc with
  | nil =>
    obtain rfl := Except.ok.inj h
    rfl
  | cons p rest ih =>
    obtain ⟨nm, msg⟩ := p
    rw [List.cons_append]
    rw [respLoop] at h ⊢
    cases hg : getId mid msg with
    | error e => rw [hg] at h; exact absurd h (by simp)
    | ok msgid =>
      rw [hg] at h
      dsimp only at h ⊢
      by_cases hd : acc.did.contains msgid = true
      · rw [if_pos hd] at h ⊢
        exact ih h
      · rw [if_neg hd] at h ⊢
        exact ih h

theorem respLoop_append_error {mp : MsgProto} {mid : List (String × Nat)}
    {es : List (Option String × String)} {acc : RespAcc} {e : String}
    (ys : List (Option String × String))
    (h : respLoop mp mid es acc = .error e) :
    respLoop mp mid (es ++ ys) acc = .error e := by
  induction es generalizing acc with
  | nil => exact absurd h (by simp [respLoop])
  | cons p rest ih =>
    obtain ⟨nm, msg⟩ := p
    rw [List.cons_append]
    rw [respLoop] at h ⊢
    cases hg : getId mid msg with
    | error e' => rw [hg] at h; exact h
    | ok msgid =>
      rw [hg] at h
      dsimp only at h ⊢
      by_cases hd : acc.did.contains msgid = true
      · rw [if_pos hd] at h ⊢
        exact ih h
      · rw [if_neg hd] at h ⊢
        exact ih h

/-- Structure of a successful `generate_responses_code` loop run: the
accumulator only grows; exactly one `command_encoder` definition is
emitted per newly seen identifier (`did_output` keys the dedup by
identifier), the emitted identifiers are pairwise distinct and each
emission adds exactly one lookup-chain line, in the output chain or the
encoder chain. -/
theorem respLoop_spec {mp : MsgProto} {mid : List (String × Nat)}
    {es : List (Option String × String)} {acc r : RespAcc}
    (h : respLoop mp mid es acc = .ok r) :
    ∃ nd no ne,
      r.defs = acc.defs ++ nd
      ∧ r.outs = acc.outs ++ no
      ∧ r.encs = acc.encs ++ ne
      ∧ r.did = acc.did ++ nd.map Prod.fst
      ∧ (∀ i ∈ nd.map Prod.fst, i ∉ acc.did)
      ∧ (nd.map Prod.fst).Nodup
      ∧ (no.map Prod.snd ++ ne.map Prod.snd).Perm (nd.map Prod.fst) := by
  induction es generalizing acc with
  | nil =>
    obtain rfl := Except.ok.inj h
    exact ⟨[], [], [], by simp, by simp, by simp, by simp, by simp, by simp,
      by simp⟩
  | cons p rest ih =>
    obtain ⟨nm, msg⟩ := p
    rw [respLoop] at h
    cases hg : getId mid msg with
    | error e => rw [hg] at h; exact absurd h (by simp)
    | ok msgid =>
      rw [hg] at h
      dsimp only at h
      by_cases hd : acc.did.contains msgid = true
      · rw [if_pos hd] at h
        exact ih h
      · rw [if_neg hd] at h
        have hnotmem : msgid ∉ acc.did := fun hmem =>
          hd (contains_iff_mem.2 hmem)
        by_cases ho : nm.isNone = true
        · rw [if_pos ho] at h
          obtain ⟨nd', no', ne', h1, h2, h3, h4, h5, h6, h7⟩ := ih h
          dsimp only at h1 h2 h3 h4 h5
          refine ⟨(msgid, (buildParser mp acc.tbl nm.isNone msgid msg
              false).2) :: nd', (msg, msgid) :: no', ne', ?_, ?_, ?_, ?_,
              ?_, ?_, ?_⟩
          · rw [h1]
            simp [List.append_assoc]
          · rw [h2]
            simp [List.append_assoc]
          · rw [h3]
          · rw [h4, List.map_cons]
            simp [List.append_assoc]
          · intro i hi
            rw [List.map_cons] at hi
            rcases List.mem_cons.1 hi with rfl | hi'
            · exact hnotmem
            · intro hmem
              exact h5 i hi' (List.mem_append.2 (Or.inl hmem))
          · rw [List.map_cons]
            refine List.nodup_cons.2 ⟨fun hmem => ?_, h6⟩
            exact h5 msgid hmem (List.mem_append.2 (Or.inr (by simp)))
          · rw [List.map_cons, List.map_cons, List.cons_append]
            exact h7.cons msgid
        · rw [if_neg ho] at h
          obtain ⟨nd', no', ne', h1, h2, h3, h4, h5, h6, h7⟩ := ih h
          dsimp only at h1 h2 h3 h4 h5
          refine ⟨(msgid, (buildParser mp acc.tbl nm.isNone msgid msg
              false).2) :: nd', no', (msg, msgid) :: ne', ?_, ?_, ?_, ?_,
              ?_, ?_, ?_⟩
          · rw [h1]
            simp [List.append_assoc]
          · rw [h2]
          · rw [h3]
            simp [List.append_assoc]
          · rw [h4, List.map_cons]
            simp [List.append_assoc]
          · intro i hi
            rw [List.map_cons] at hi
            rcases List.mem_cons.1 hi with rfl | hi'
            · exact hnotmem
            · intro hmem
              exact h5 i hi' (List.mem_append.2 (Or.inl hmem))
          · rw [List.map_cons]
            refine List.nodup_cons.2 ⟨fun hmem => ?_, h6⟩
            exact h5 msgid hmem (List.mem_append.2 (Or.inr (by simp)))
          · rw [List.map_cons, List.map_cons]
            exact List.perm_middle.trans (h7.cons msgid)

/-- Every encoder entry that a successful loop run visits has an assigned
identifier, and that identifier ends up in the `did_output` key set. -/
theorem respLoop_mem {mp : MsgProto} {mid : List (String × Nat)}
    {es : List (Option String × String)} {acc r : RespAcc}
    (h : respLoop mp mid es acc = .ok r)
    {nm : Option String} {msg : String} (hmem : (nm, msg) ∈ es) :
    ∃ i, getId mid msg = .ok i ∧ i ∈ r.did := by
  induction es generalizing acc with
  | nil => simp at hmem
  | cons p rest ih =>
    obtain ⟨nm', msg'⟩ := p
    rw [respLoop] at h
    cases hg : getId mid msg' with
    | error e => rw [hg] at h; exact absurd h (by simp)
    | ok msgid =>
      rw [hg] at h
      dsimp only at h
      rcases List.mem_cons.1 hmem with he | hmem'
      · obtain ⟨-, rfl⟩ : nm = nm' ∧ msg = msg' := by
          exact ⟨congrArg Prod.fst he, congrArg Prod.snd he⟩
        refine ⟨msgid, hg, ?_⟩
        by_cases hd : acc.did.contains msgid = true
        · rw [if_pos hd] at h
          obtain ⟨nd, no, ne, hq1, hq2, hq3, hdid, hq5, hq6, hq7⟩ := respLoop_spec h
          rw [hdid]
          exact List.mem_append.2 (Or.inl (contains_iff_mem.1 hd))
        · rw [if_neg hd] at h
          by_cases ho : nm'.isNone = true
          · rw [if_pos ho] at h
            obtain ⟨nd, no, ne, hq1, hq2, hq3, hdid, hq5, hq6, hq7⟩ := respLoop_spec h
            rw [hdid]
            dsimp only
            exact List.mem_append.2 (Or.inl (List.mem_append.2
              (Or.inr (by simp))))
          · rw [if_neg ho] at h
            obtain ⟨nd, no, ne, hq1, hq2, hq3, hdid, hq5, hq6, hq7⟩ := respLoop_spec h
            rw [hdid]
            dsimp only
            exact List.mem_append.2 (Or.inl (List.mem_append.2
              (Or.inr (by simp))))
      · by_cases hd : acc.did.contains msgid = true
        · rw [if_pos hd] at h
          exact ih h hmem'
        · rw [if_neg hd] at h
          by_cases ho : nm'.isNone = true
          · rw [if_pos ho] at h
            exact ih h hmem'
          · rw [if_neg ho] at h
            exact ih h hmem'

/-- C8: `decl_output` is idempotent for identical format strings —
re-declaring the same output format any number of times never errors
(`decl_output` is total), a duplicate encoder entry leaves the emitted
responses code unchanged, and a successful emission contains exactly one
`command_encoder` definition and exactly one lookup-chain line for the
format's identifier. -/
theorem decl_output_idempotent (mp : MsgProto) (s : GenState) (m : String)
    (hm : ((none : Option String), m) ∈ s.encoders) :
    (∀ k, ∃ s', processAll (List.replicate k (Req.declOutput m)) s = .ok s')
    ∧ genResponses mp { s with encoders := s.encoders ++ [(none, m)] }
        = genResponses mp s
    ∧ ∀ r, genResponses mp s = .ok r →
        ∃ i, getId s.msg_to_id m = .ok i
          ∧ (r.defs.map Prod.fst).count i = 1
          ∧ (r.outs.map Prod.snd).count i + (r.encs.map Prod.snd).count i
            = 1 := by
  refine ⟨?_, ?_, ?_⟩
  · have main : ∀ (k : Nat) (s₀ : GenState), ∃ s',
        processAll (List.replicate k (Req.declOutput m)) s₀ = .ok s' := by
      intro k
      induction k with
      | zero => exact fun s₀ => ⟨s₀, rfl⟩
      | succ k ihk =>
        intro s₀
        rw [List.replicate_succ, processAll]
        exact ihk (decl_output s₀ m)
    exact fun k => main k s
  · show respLoop mp s.msg_to_id (s.encoders ++ [(none, m)])
        { defs := [], outs := [], encs := [], did := [],
          tbl := s.all_param_types }
      = respLoop mp s.msg_to_id s.encoders
        { defs := [], outs := [], encs := [], did := [],
          tbl := s.all_param_types }
    cases hrun : respLoop mp s.msg_to_id s.encoders
        { defs := [], outs := [], encs := [], did := [],
          tbl := s.all_param_types } with
    | error e => exact respLoop_append_error _ hrun
    | ok r =>
      rw [respLoop_append_ok _ hrun]
      obtain ⟨i, hgi, hdid⟩ := respLoop_mem hrun hm
      rw [respLoop, hgi]
      dsimp only
      rw [if_pos (contains_iff_mem.2 hdid)]
      rfl
  · intro r hr
    rw [genResponses] at hr
    obtain ⟨i, hgi, hdid⟩ := respLoop_mem hr hm
    obtain ⟨nd, no, ne, h1, h2, h3, h4, h5, h6, h7⟩ := respLoop_spec hr
    dsimp only at h1 h2 h3 h4
    rw [List.nil_append] at h1 h2 h3 h4
    refine ⟨i, hgi, ?_, ?_⟩
    · rw [h1]
      exact List.count_eq_one_of_mem h6 (by rw [h4] at hdid; exact hdid)
    · have hcnt : (no.map Prod.snd ++ ne.map Prod.snd).count i
          = (nd.map Prod.fst).count i := h7.count_eq i
      rw [List.count_append] at hcnt
      rw [h2, h3, hcnt]
      exact List.count_eq_one_of_mem h6 (by rw [h4] at hdid; exact hdid)

theorem decl_output_idempotent_witness :
    ((none : Option String), "dbg %u") ∈ sW6.encoders
    ∧ ((∀ k, ∃ s', processAll (List.replicate k (Req.declOutput "dbg %u"))
          sW6 = .ok s')
      ∧ genResponses mpSample
          { sW6 with encoders := sW6.encoders ++ [(none, "dbg %u")] }
        = genResponses mpSample sW6
      ∧ ∀ r, genResponses mpSample sW6 = .ok r →
          ∃ i, getId sW6.msg_to_id "dbg %u" = .ok i
            ∧ (r.defs.map Prod.fst).count i = 1
            ∧ (r.outs.map Prod.snd).count i + (r.encs.map Prod.snd).count i
              = 1) :=
  ⟨by decide, decl_output_idempotent mpSample sW6 "dbg %u" (by decide)⟩

end BuildCommands
